import Mathlib

/-!
Verification of the Compilatio manuscript-import pipeline.

This file gives a shallow embedding of the shared ETL logic of the
per-source importer scripts (scripts/importers/harvard.py and its
siblings): the checkpoint store, the resume filter, the insert-or-update
engine, the date normalizer, the IIIF metadata extractor and the record
builder.  Each definition is a direct translation of the corresponding
Python function; theorems then settle the spec claims about them.
-/

set_option autoImplicit false

namespace Compilatio

/-! ## Checkpoint store

Translated from scripts/importers/harvard.py, lines 376-411
(load_progress, save_progress, mark_completed, mark_failed).
The checkpoint is a JSON object with fields last_updated,
total_discovered, completed_ids, failed_ids, phase.  save_progress
stamps last_updated and writes the whole object to the checkpoint file;
we model one call as returning the pair (in-memory state, file content).
-/

structure Progress where
  last_updated : Option String
  total_discovered : Nat
  completed_ids : List String
  failed_ids : List String
  phase : String
  deriving Repr, DecidableEq

/-- The default progress object returned by load_progress when no
checkpoint file exists (harvard.py lines 378-385). -/
def initial_progress : Progress :=
  { last_updated := none
    total_discovered := 0
    completed_ids := []
    failed_ids := []
    phase := "discovery" }

/-- save_progress (harvard.py lines 390-395): sets last_updated to the
current time and writes the object to the checkpoint file.  The first
component of the result is the in-memory object after the call, the
second is the content now stored in the checkpoint file. -/
def save_progress (p : Progress) (now : String) : Progress × Progress :=
  let p2 := { p with last_updated := some now }
  (p2, p2)

/-- mark_completed (harvard.py lines 398-404): append the id to
completed_ids when absent, remove its first occurrence from failed_ids
when present (Python list.remove), then save the checkpoint. -/
def mark_completed (p : Progress) (drs_id : String) (now : String) :
    Progress × Progress :=
  let p1 := if drs_id ∈ p.completed_ids then p
    else { p with completed_ids := p.completed_ids ++ [drs_id] }
  let p2 := if drs_id ∈ p1.failed_ids then
      { p1 with failed_ids := p1.failed_ids.erase drs_id }
    else p1
  save_progress p2 now

/-- mark_failed (harvard.py lines 407-411): append the id to failed_ids
when absent, then save the checkpoint.  completed_ids is not touched. -/
def mark_failed (p : Progress) (drs_id : String) (now : String) :
    Progress × Progress :=
  let p1 := if drs_id ∈ p.failed_ids then p
    else { p with failed_ids := p.failed_ids ++ [drs_id] }
  save_progress p1 now

/-- The resume filter (harvard.py lines 752-762): when resuming and
completed_ids is non-empty, the item list handed to Phase 2 keeps only
the discovery items whose drs_id is not in completed_ids; otherwise the
list is passed through unchanged.  Items are represented here by their
drs_id, the only field the filter consults. -/
def items_to_process (resume : Bool) (completed_ids : List String)
    (items : List String) : List String :=
  if resume ∧ ¬ completed_ids.isEmpty then
    items.filter (fun item => !(completed_ids.contains item))
  else items

/-! ### Checkpoint lemmas -/

theorem mem_completed_mark_completed (p : Progress) (d now : String) :
    d ∈ (mark_completed p d now).1.completed_ids := by
  unfold mark_completed save_progress
  by_cases h1 : d ∈ p.completed_ids <;>
    by_cases h2 : d ∈ (if d ∈ p.completed_ids then p
      else { p with completed_ids := p.completed_ids ++ [d] }).failed_ids <;>
    simp_all

theorem not_mem_failed_mark_completed (p : Progress) (d now : String)
    (hnd : p.failed_ids.Nodup) :
    d ∉ (mark_completed p d now).1.failed_ids := by
  unfold mark_completed save_progress
  by_cases h1 : d ∈ p.completed_ids <;>
    by_cases h2 : d ∈ (if d ∈ p.completed_ids then p
      else { p with completed_ids := p.completed_ids ++ [d] }).failed_ids <;>
    simp_all [List.Nodup.mem_erase_iff]

theorem file_eq_memory_mark_completed (p : Progress) (d now : String) :
    (mark_completed p d now).2 = (mark_completed p d now).1 := by
  unfold mark_completed save_progress
  rfl

/-- Claim C8: after mark_completed(id) the id is a member of
completed_ids, is not a member of failed_ids (a previous failure is
removed), and the updated checkpoint is written to the checkpoint file
before the call returns, so the file content equals the in-memory state.
The hypothesis that failed_ids has no duplicates holds for every state
the store itself produces, since mark_failed appends only when the id
is absent. -/
theorem mark_completed_spec (p : Progress) (d now : String)
    (hnd : p.failed_ids.Nodup) :
    d ∈ (mark_completed p d now).1.completed_ids ∧
    d ∉ (mark_completed p d now).1.failed_ids ∧
    (mark_completed p d now).2 = (mark_completed p d now).1 :=
  ⟨mem_completed_mark_completed p d now,
   not_mem_failed_mark_completed p d now hnd,
   file_eq_memory_mark_completed p d now⟩

/-- Membership in the filtered Phase 2 list: an id survives the resume
filter exactly when it is a discovered item that is not yet completed. -/
theorem mem_items_to_process (completed items : List String) (d : String) :
    d ∈ items_to_process true completed items ↔ d ∈ items ∧ d ∉ completed := by
  unfold items_to_process
  by_cases he : completed.isEmpty
  · have : completed = [] := List.isEmpty_iff.mp he
    subst this
    simp
  · simp [he, List.mem_filter]

/-- Claim C6: if a run is interrupted after fully processing the first N
items and re-invoked with resume (so that completed_ids holds exactly
those N ids), the list passed to Phase 2 is precisely the remaining
items: the first N are excluded and each remaining item occurs exactly
once.  The Phase 2 loop iterates once over this list, so each surviving
item is processed exactly once. -/
theorem resume_processes_remainder (items : List String) (N : Nat)
    (h : items.Nodup) :
    items_to_process true (items.take N) items = items.drop N ∧
    (∀ d ∈ items.take N, d ∉ items_to_process true (items.take N) items) ∧
    ∀ d ∈ items.drop N, (items_to_process true (items.take N) items).count d = 1 := by
  have hsplit : items.take N ++ items.drop N = items := List.take_append_drop N items
  have hnd : (items.take N ++ items.drop N).Nodup := by rw [hsplit]; exact h
  rw [List.nodup_append] at hnd
  obtain ⟨hnd1, hnd2, hdisj⟩ := hnd
  have hmain : items_to_process true (items.take N) items = items.drop N := by
    unfold items_to_process
    by_cases he : (items.take N).isEmpty
    · have h0 : items.take N = [] := List.isEmpty_iff.mp he
      rcases List.take_eq_nil_iff.mp h0 with h1 | h1
      · simp [h1]
      · simp [h1]
    · have h1 : (items.take N).filter
          (fun item => !((items.take N).contains item)) = [] := by
        apply List.filter_eq_nil_iff.mpr
        intro a ha
        simp [ha]
      have h2 : (items.drop N).filter
          (fun item => !((items.take N).contains item)) = items.drop N := by
        apply List.filter_eq_self.mpr
        intro a ha
        have hna : a ∉ items.take N := fun hx => hdisj hx ha
        simp [hna]
      have key : (items.take N ++ items.drop N).filter
          (fun item => !((items.take N).contains item)) = items.drop N := by
        rw [List.filter_append, h1, h2, List.nil_append]
      have key2 := congrArg
        (List.filter (fun item => !((items.take N).contains item))) hsplit
      simp only [he, not_false_iff, and_true, if_pos, true_and]
      exact key2.symm.trans key
  refine ⟨hmain, ?_, ?_⟩
  · intro d hd
    rw [hmain]
    exact fun hd2 => hdisj hd hd2
  · intro d hd
    rw [hmain]
    exact List.count_eq_one_of_mem hnd2 hd

/-- Witness for C6 with three items interrupted after the first two:
only the third remains, exactly once. -/
theorem resume_processes_remainder_witness :
    items_to_process true (["a", "b", "c"].take 2) ["a", "b", "c"] =
      ["a", "b", "c"].drop 2 ∧
    (∀ d ∈ (["a", "b", "c"] : List String).take 2,
      d ∉ items_to_process true (["a", "b", "c"].take 2) ["a", "b", "c"]) ∧
    ∀ d ∈ (["a", "b", "c"] : List String).drop 2,
      (items_to_process true (["a", "b", "c"].take 2) ["a", "b", "c"]).count d = 1 :=
  resume_processes_remainder ["a", "b", "c"] 2 (by decide)

/-- Claim C10: mark_failed adds the id to failed_ids and leaves
completed_ids untouched, so an id that was completed earlier and then
marked failed sits in both lists, and the resume filter — which consults
only completed_ids — still skips it. -/
theorem mark_failed_frame (p : Progress) (d now : String) (items : List String) :
    (mark_failed p d now).1.completed_ids = p.completed_ids ∧
    d ∈ (mark_failed p d now).1.failed_ids ∧
    (d ∈ p.completed_ids →
      d ∈ (mark_failed p d now).1.completed_ids ∧
      d ∈ (mark_failed p d now).1.failed_ids ∧
      d ∉ items_to_process true (mark_failed p d now).1.completed_ids items) := by
  have hcomp : (mark_failed p d now).1.completed_ids = p.completed_ids := by
    unfold mark_failed save_progress
    by_cases hf : d ∈ p.failed_ids <;> simp [hf]
  have hfail : d ∈ (mark_failed p d now).1.failed_ids := by
    unfold mark_failed save_progress
    by_cases hf : d ∈ p.failed_ids <;> simp [hf]
  refine ⟨hcomp, hfail, fun hc => ⟨hcomp ▸ hc, hfail, fun hmem => ?_⟩⟩
  rw [mem_items_to_process] at hmem
  exact hmem.2 (hcomp ▸ hc)

/-- Witness for C10: id x, completed earlier, then marked failed, ends up
in both lists and is still excluded from the resumed Phase 2 list. -/
theorem mark_failed_frame_witness :
    (mark_failed
        { last_updated := none, total_discovered := 2,
          completed_ids := ["x"], failed_ids := [], phase := "import" }
        "x" "t").1.completed_ids = ["x"] ∧
    "x" ∈ (mark_failed
        { last_updated := none, total_discovered := 2,
          completed_ids := ["x"], failed_ids := [], phase := "import" }
        "x" "t").1.failed_ids ∧
    ("x" ∈ (mark_failed
        { last_updated := none, total_discovered := 2,
          completed_ids := ["x"], failed_ids := [], phase := "import" }
        "x" "t").1.completed_ids ∧
     "x" ∉ items_to_process true (mark_failed
        { last_updated := none, total_discovered := 2,
          completed_ids := ["x"], failed_ids := [], phase := "import" }
        "x" "t").1.completed_ids ["x", "y"]) :=
  ⟨(mark_failed_frame _ "x" "t" ["x", "y"]).1,
   (mark_failed_frame _ "x" "t" ["x", "y"]).2.1,
   ((mark_failed_frame _ "x" "t" ["x", "y"]).2.2 (by decide)).1,
   ((mark_failed_frame _ "x" "t" ["x", "y"]).2.2 (by decide)).2.2⟩

/-- Witness for C8 at a concrete state: the id x was previously failed,
and one mark_completed call moves it to completed and out of failed. -/
theorem mark_completed_spec_witness :
    "x" ∈ (mark_completed
        { last_updated := none, total_discovered := 2,
          completed_ids := ["a"], failed_ids := ["x"], phase := "import" }
        "x" "t").1.completed_ids ∧
    "x" ∉ (mark_completed
        { last_updated := none, total_discovered := 2,
          completed_ids := ["a"], failed_ids := ["x"], phase := "import" }
        "x" "t").1.failed_ids ∧
    (mark_completed
        { last_updated := none, total_discovered := 2,
          completed_ids := ["a"], failed_ids := ["x"], phase := "import" }
        "x" "t").2 =
      (mark_completed
        { last_updated := none, total_discovered := 2,
          completed_ids := ["a"], failed_ids := ["x"], phase := "import" }
        "x" "t").1 :=
  mark_completed_spec _ "x" "t" (by decide)

/-! ## Upsert engine

Translated from the database phase of scripts/importers/harvard.py
(lines 663-670 and 825-899) and scripts/importers/bodleian.py (lines
427-502).  A Manuscript row carries the non-key columns of the
manuscripts table; the database is the row list plus the next surrogate
id SQLite would assign. -/

structure Fields where
  collection : Option String
  date_display : Option String
  date_start : Option Int
  date_end : Option Int
  contents : Option String
  provenance : Option String
  language : Option String
  folios : Option String
  iiif_manifest_url : Option String
  thumbnail_url : Option String
  source_url : Option String
  image_count : Option Int
  deriving Repr, DecidableEq

/-- All-NULL payload, used for concrete database states in witnesses. -/
def Fields.blank : Fields :=
  ⟨none, none, none, none, none, none, none, none, none, none, none, none⟩

structure Row where
  rid : Nat
  repository_id : Nat
  shelfmark : String
  fields : Fields
  deriving Repr, DecidableEq

structure DB where
  rows : List Row
  next_rid : Nat
  deriving Repr, DecidableEq

/-- A canonical record handed to the upsert engine: the key column plus
the non-key payload. -/
structure ImportRecord where
  shelfmark : String
  fields : Fields
  deriving Repr, DecidableEq

/-- manuscript_exists (harvard.py lines 663-670): SELECT id FROM
manuscripts WHERE shelfmark = ? AND repository_id = ?; returns the id of
the first matching row, None otherwise. -/
def manuscript_exists (db : DB) (shelfmark : String) (repo_id : Nat) :
    Option Nat :=
  (db.rows.find? (fun r =>
    r.shelfmark == shelfmark && r.repository_id == repo_id)).map Row.rid

inductive UpsertAction where
  | inserted
  | updated
  deriving Repr, DecidableEq

/-- The dry-run branch (harvard.py lines 828-838): SELECT id FROM
manuscripts WHERE shelfmark = ? — no repository_id in the WHERE clause —
and count the record as a would-be update exactly when some row with
that shelfmark exists. -/
def dry_run_classify (db : DB) (shelfmark : String) : UpsertAction :=
  if db.rows.any (fun r => r.shelfmark == shelfmark) then
    UpsertAction.updated
  else UpsertAction.inserted

/-- The classification the execute branch acts on (harvard.py line 841):
manuscript_exists by (shelfmark, repository_id); found means UPDATE,
absent means INSERT. -/
def execute_classify (db : DB) (shelfmark : String) (repo_id : Nat) :
    UpsertAction :=
  match manuscript_exists db shelfmark repo_id with
  | some _ => UpsertAction.updated
  | none => UpsertAction.inserted

/-- The execute branch of harvard.py (lines 839-899): look up the row by
(shelfmark, repository_id); when found, UPDATE every non-key column of
the row with that id to the new record's values; when absent, INSERT a
new row with the next surrogate id. -/
def harvard_execute_upsert (db : DB) (repo_id : Nat)
    (record : ImportRecord) : DB :=
  match manuscript_exists db record.shelfmark repo_id with
  | some existing_id =>
    { db with rows := db.rows.map (fun r =>
        if r.rid = existing_id then { r with fields := record.fields } else r) }
  | none =>
    { rows := db.rows ++
        [⟨db.next_rid, repo_id, record.shelfmark, record.fields⟩],
      next_rid := db.next_rid + 1 }

/-- The execute branch of bodleian.py (lines 427-502): same lookup by
(shelfmark, repository_id); its UPDATE and INSERT column lists omit
image_count, so an update keeps the stored image_count and an insert
leaves it NULL. -/
def bodleian_execute_upsert (db : DB) (repo_id : Nat)
    (record : ImportRecord) : DB :=
  match manuscript_exists db record.shelfmark repo_id with
  | some existing_id =>
    { db with rows := db.rows.map (fun r =>
        if r.rid = existing_id then
          { r with fields :=
              { record.fields with image_count := r.fields.image_count } }
        else r) }
  | none =>
    { rows := db.rows ++
        [⟨db.next_rid, repo_id, record.shelfmark,
          { record.fields with image_count := none }⟩],
      next_rid := db.next_rid + 1 }

/-- Number of rows carrying a given (shelfmark, repository_id) key. -/
def keyCount (db : DB) (s : String) (repo : Nat) : Nat :=
  db.rows.countP (fun r => r.shelfmark == s && r.repository_id == repo)

/-- The application-level uniqueness invariant: at most one Manuscript
row per (shelfmark, repository_id) pair. -/
def UniqueKeys (db : DB) : Prop :=
  ∀ s repo, keyCount db s repo ≤ 1

/-- One step of an import sequence: an execute-mode upsert performed by
the Harvard or the Bodleian importer against some repository id. -/
inductive ImportStep where
  | harvard (repo_id : Nat) (record : ImportRecord)
  | bodleian (repo_id : Nat) (record : ImportRecord)
  deriving Repr

def apply_step (db : DB) : ImportStep → DB
  | ImportStep.harvard repo record => harvard_execute_upsert db repo record
  | ImportStep.bodleian repo record => bodleian_execute_upsert db repo record

/-- Any interleaving of importer runs is a fold of single upserts, since
each run processes its records one at a time on one connection. -/
def apply_steps (db : DB) (steps : List ImportStep) : DB :=
  steps.foldl apply_step db

/-! ### Upsert lemmas -/

theorem keyCount_map_keeping_keys (db : DB) (s : String) (repo : Nat)
    (f : Row → Row)
    (hf : ∀ r, (f r).shelfmark = r.shelfmark ∧ (f r).repository_id = r.repository_id) :
    keyCount { db with rows := db.rows.map f } s repo = keyCount db s repo := by
  unfold keyCount
  rw [List.countP_map]
  congr 1
  funext r
  simp only [Function.comp_apply, (hf r).1, (hf r).2]

theorem find?_none_keyCount_zero (db : DB) (s : String) (repo : Nat)
    (h : manuscript_exists db s repo = none) : keyCount db s repo = 0 := by
  unfold manuscript_exists at h
  have hfind : db.rows.find? (fun r =>
      r.shelfmark == s && r.repository_id == repo) = none := by
    cases hf : db.rows.find? (fun r =>
        r.shelfmark == s && r.repository_id == repo) with
    | none => rfl
    | some v => rw [hf] at h; simp at h
  rw [List.find?_eq_none] at hfind
  unfold keyCount
  rw [List.countP_eq_zero]
  exact hfind

theorem uniqueKeys_harvard_upsert (db : DB) (repo : Nat)
    (record : ImportRecord) (h : UniqueKeys db) :
    UniqueKeys (harvard_execute_upsert db repo record) := by
  intro s rp
  unfold harvard_execute_upsert
  cases hfind : manuscript_exists db record.shelfmark repo with
  | some mid =>
    rw [keyCount_map_keeping_keys]
    · exact h s rp
    · intro r
      by_cases hr : r.rid = mid <;> simp [hr]
  | none =>
    simp only [keyCount, List.countP_append, List.countP_cons, List.countP_nil]
    by_cases hk : (record.shelfmark == s && repo == rp) = true
    · have hs : record.shelfmark = s :=
        eq_of_beq ((Bool.and_eq_true _ _).mp hk).1
      have hr : repo = rp := eq_of_beq ((Bool.and_eq_true _ _).mp hk).2
      have hzero : List.countP
          (fun r => r.shelfmark == s && r.repository_id == rp) db.rows = 0 := by
        have := find?_none_keyCount_zero db record.shelfmark repo hfind
        unfold keyCount at this
        rw [← hs, ← hr]
        exact this
      simp [hzero, hk]
    · have hnk : ¬ ((record.shelfmark == s && repo == rp) = true) := hk
      simp only [hnk, if_false, Nat.zero_add, Nat.add_zero]
      have := h s rp
      unfold keyCount at this
      simpa [hnk] using this

theorem uniqueKeys_bodleian_upsert (db : DB) (repo : Nat)
    (record : ImportRecord) (h : UniqueKeys db) :
    UniqueKeys (bodleian_execute_upsert db repo record) := by
  intro s rp
  unfold bodleian_execute_upsert
  cases hfind : manuscript_exists db record.shelfmark repo with
  | some mid =>
    rw [keyCount_map_keeping_keys]
    · exact h s rp
    · intro r
      by_cases hr : r.rid = mid <;> simp [hr]
  | none =>
    simp only [keyCount, List.countP_append, List.countP_cons, List.countP_nil]
    by_cases hk : (record.shelfmark == s && repo == rp) = true
    · have hs : record.shelfmark = s :=
        eq_of_beq ((Bool.and_eq_true _ _).mp hk).1
      have hr : repo = rp := eq_of_beq ((Bool.and_eq_true _ _).mp hk).2
      have hzero : List.countP
          (fun r => r.shelfmark == s && r.repository_id == rp) db.rows = 0 := by
        have := find?_none_keyCount_zero db record.shelfmark repo hfind
        unfold keyCount at this
        rw [← hs, ← hr]
        exact this
      simp [hzero, hk]
    · have hnk : ¬ ((record.shelfmark == s && repo == rp) = true) := hk
      simp only [hnk, if_false, Nat.zero_add, Nat.add_zero]
      have := h s rp
      unfold keyCount at this
      simpa [hnk] using this

/-- Claim C2: starting from a state with at most one Manuscript row per
(shelfmark, repository_id) pair, any sequence of execute-mode upserts by
the Harvard and Bodleian importers preserves that bound: each step looks
the key up before writing and inserts only when it is absent. -/
theorem upsert_key_uniqueness (db : DB) (steps : List ImportStep)
    (h : UniqueKeys db) : UniqueKeys (apply_steps db steps) := by
  induction steps generalizing db with
  | nil => exact h
  | cons st rest ih =>
    cases st with
    | harvard repo record =>
      exact ih (harvard_execute_upsert db repo record)
        (uniqueKeys_harvard_upsert db repo record h)
    | bodleian repo record =>
      exact ih (bodleian_execute_upsert db repo record)
        (uniqueKeys_bodleian_upsert db repo record h)

/-- Witness for C2: two runs re-importing the same shelfmark into an
empty database leave the key unique. -/
theorem upsert_key_uniqueness_witness :
    UniqueKeys (apply_steps { rows := [], next_rid := 1 }
      [ImportStep.harvard 1 ⟨"MS Lat 249", Fields.blank⟩,
       ImportStep.harvard 1 ⟨"MS Lat 249", Fields.blank⟩,
       ImportStep.bodleian 2 ⟨"MS Lat 249", Fields.blank⟩]) :=
  upsert_key_uniqueness { rows := [], next_rid := 1 } _
    (by intro s repo; simp [keyCount])

/-- Claim C1 counterexample: with one row holding shelfmark MS Lat 249
under repository 2 and the Harvard repository being id 1, the dry-run
branch predicts an update while the execute branch inserts a new row. -/
theorem dry_run_execute_disagree :
    dry_run_classify
      { rows := [⟨1, 2, "MS Lat 249", Fields.blank⟩], next_rid := 2 }
      "MS Lat 249" = UpsertAction.updated ∧
    execute_classify
      { rows := [⟨1, 2, "MS Lat 249", Fields.blank⟩], next_rid := 2 }
      "MS Lat 249" 1 = UpsertAction.inserted ∧
    (harvard_execute_upsert
      { rows := [⟨1, 2, "MS Lat 249", Fields.blank⟩], next_rid := 2 }
      1 ⟨"MS Lat 249", Fields.blank⟩).rows.length = 2 := by
  decide

/-- Claim C1, amended: the dry-run branch predicts update exactly when
some row with the record's shelfmark exists under any repository, the
execute branch updates exactly when a row with the (shelfmark,
repository_id) pair exists, and the two classifications agree on every
state in which each row bearing that shelfmark belongs to the importer's
repository. -/
theorem dry_run_execute_agreement (db : DB) (s : String) (repo : Nat) :
    (dry_run_classify db s = UpsertAction.updated ↔
      ∃ r ∈ db.rows, r.shelfmark = s) ∧
    (execute_classify db s repo = UpsertAction.updated ↔
      ∃ r ∈ db.rows, r.shelfmark = s ∧ r.repository_id = repo) ∧
    ((∀ r ∈ db.rows, r.shelfmark = s → r.repository_id = repo) →
      dry_run_classify db s = execute_classify db s repo) := by
  have hdry : dry_run_classify db s = UpsertAction.updated ↔
      ∃ r ∈ db.rows, r.shelfmark = s := by
    unfold dry_run_classify
    by_cases hany : db.rows.any (fun r => r.shelfmark == s) = true
    · rw [if_pos hany]
      rw [List.any_eq_true] at hany
      obtain ⟨r, hr, hrs⟩ := hany
      exact ⟨fun _ => ⟨r, hr, eq_of_beq hrs⟩, fun _ => rfl⟩
    · rw [if_neg hany]
      constructor
      · intro hcontra
        exact absurd hcontra (by decide)
      · intro ⟨r, hr, hrs⟩
        exfalso
        apply hany
        rw [List.any_eq_true]
        exact ⟨r, hr, beq_iff_eq.mpr hrs⟩
  have hexe : execute_classify db s repo = UpsertAction.updated ↔
      ∃ r ∈ db.rows, r.shelfmark = s ∧ r.repository_id = repo := by
    unfold execute_classify manuscript_exists
    cases hf : db.rows.find? (fun r =>
        r.shelfmark == s && r.repository_id == repo) with
    | none =>
      rw [List.find?_eq_none] at hf
      constructor
      · intro hcontra
        exact absurd hcontra (by simp)
      · intro ⟨r, hr, hr1, hr2⟩
        exact absurd (by simp [hr1, hr2] :
          (fun r : Row => r.shelfmark == s && r.repository_id == repo) r = true)
          (hf r hr)
    | some v =>
      have hmem := List.mem_of_find?_eq_some hf
      have hpred := List.find?_some hf
      simp only [Bool.and_eq_true, beq_iff_eq] at hpred
      exact ⟨fun _ => ⟨v, hmem, hpred.1, hpred.2⟩, fun _ => by simp⟩
  refine ⟨hdry, hexe, fun hall => ?_⟩
  by_cases hex : ∃ r ∈ db.rows, r.shelfmark = s
  · obtain ⟨r, hr, hrs⟩ := hex
    have h1 : dry_run_classify db s = UpsertAction.updated :=
      hdry.mpr ⟨r, hr, hrs⟩
    have h2 : execute_classify db s repo = UpsertAction.updated :=
      hexe.mpr ⟨r, hr, hrs, hall r hr hrs⟩
    rw [h1, h2]
  · have h1 : dry_run_classify db s ≠ UpsertAction.updated :=
      fun hc => hex (hdry.mp hc)
    have h2 : execute_classify db s repo ≠ UpsertAction.updated :=
      fun hc => hex (let ⟨r, hr, hrs, _⟩ := hexe.mp hc; ⟨r, hr, hrs⟩)
    cases hd : dry_run_classify db s with
    | updated => exact absurd hd h1
    | inserted =>
      cases he : execute_classify db s repo with
      | updated => exact absurd he h2
      | inserted => rfl

/-- Witness for C1 amended: on a database whose only MS Bodl. 196 row
already belongs to repository 1, dry-run and execute classify alike. -/
theorem dry_run_execute_agreement_witness :
    dry_run_classify
      { rows := [⟨1, 1, "MS Bodl. 196", Fields.blank⟩], next_rid := 2 }
      "MS Bodl. 196" =
    execute_classify
      { rows := [⟨1, 1, "MS Bodl. 196", Fields.blank⟩], next_rid := 2 }
      "MS Bodl. 196" 1 :=
  (dry_run_execute_agreement
    { rows := [⟨1, 1, "MS Bodl. 196", Fields.blank⟩], next_rid := 2 }
    "MS Bodl. 196" 1).2.2 (by decide)

/-! ## Python string and regex primitives

Executable models of the Python string operations and of the concrete
regular expressions the importers use, on ASCII text (all patterns and
all markers involved are ASCII).  Scanners that resume after a match of
statically unknown length take a fuel argument initialised to the length
of the input, which bounds the number of scan steps; every step consumes
at least one character, so the fuel never runs out on the real scan. -/

/-- Python \w on ASCII text: letters, digits and underscore. -/
def isWordChar (c : Char) : Bool := c.isAlphanum || c == '_'

/-- Python \s: space, tab, newline, carriage return, vertical tab,
form feed. -/
def isPySpace (c : Char) : Bool :=
  c == ' ' || c == '\t' || c == '\n' || c == '\x0d' || c == '\x0b' || c == '\x0c'

/-- Value of an ASCII digit character. -/
def charDigit (c : Char) : Nat := c.toNat - 48

/-- Python str.lower on ASCII text. -/
def pyLower (l : List Char) : List Char := l.map Char.toLower

/-- Python str.strip with no arguments: remove leading and trailing
whitespace. -/
def pyStrip (l : List Char) : List Char :=
  ((l.dropWhile isPySpace).reverse.dropWhile isPySpace).reverse

/-- Python substring membership needle in hay. -/
def containsSub (needle : List Char) : List Char → Bool
  | [] => needle.isEmpty
  | c :: rest => needle.isPrefixOf (c :: rest) || containsSub needle rest

/-- Word boundary \b between the previous character (none at the string
start) and a word character. -/
def boundaryBefore (prev : Option Char) : Bool :=
  match prev with
  | none => true
  | some c => !(isWordChar c)

/-- Word boundary \b after a word character: true at the string end or
before a non-word character. -/
def boundaryAfter : List Char → Bool
  | [] => true
  | c :: _ => !(isWordChar c)

/-- Case-insensitive match of a lowercase literal at the head of the
list; returns the remainder on success. -/
def matchLitCI : List Char → List Char → Option (List Char)
  | [], l => some l
  | _ :: _, [] => none
  | a :: lit, c :: rest => if c.toLower == a then matchLitCI lit rest else none

/-- Python re.findall of \b(\d{4})\b: every four-digit run delimited by
word boundaries, left to right, non-overlapping, as integers. -/
def findYearsAux : Nat → Option Char → List Char → List Int
  | 0, _, _ => []
  | _ + 1, _, [] => []
  | fuel + 1, prev, c1 :: rest =>
    match rest with
    | c2 :: c3 :: c4 :: tail =>
      if boundaryBefore prev && c1.isDigit && c2.isDigit && c3.isDigit &&
          c4.isDigit && boundaryAfter tail then
        ((charDigit c1 * 1000 + charDigit c2 * 100 + charDigit c3 * 10 +
          charDigit c4 : Nat) : Int) :: findYearsAux fuel (some c4) tail
      else findYearsAux fuel (some c1) rest
    | _ => findYearsAux fuel (some c1) rest

def findYears (l : List Char) : List Int := findYearsAux l.length none l

/-- Python re.sub of \b(ca\.?|circa)\s* with the empty string, case
insensitive (harvard.py line 494).  The deleting flag is true while the
\s* tail of a match is being consumed; prev is the previous character of
the original string, for the word-boundary test. -/
def stripCircaAux : Nat → Option Char → Bool → List Char → List Char
  | 0, _, _, l => l
  | _ + 1, _, _, [] => []
  | fuel + 1, prev, deleting, c1 :: rest =>
    if deleting && isPySpace c1 then stripCircaAux fuel (some c1) true rest
    else if boundaryBefore prev && c1.toLower == 'c' then
      match rest with
      | c2 :: rest2 =>
        if c2.toLower == 'a' then
          match rest2 with
          | '.' :: rest3 => stripCircaAux fuel (some '.') true rest3
          | _ => stripCircaAux fuel (some c2) true rest2
        else if c2.toLower == 'i' then
          match rest2 with
          | c3 :: c4 :: c5 :: rest3 =>
            if c3.toLower == 'r' && c4.toLower == 'c' && c5.toLower == 'a' then
              stripCircaAux fuel (some c5) true rest3
            else c1 :: stripCircaAux fuel (some c1) false rest
          | _ => c1 :: stripCircaAux fuel (some c1) false rest
        else c1 :: stripCircaAux fuel (some c1) false rest
      | [] => [c1]
    else c1 :: stripCircaAux fuel (some c1) false rest

def stripCirca (l : List Char) : List Char := stripCircaAux l.length none false l

/-- Match of the ordinal suffix alternation (?:st|nd|rd|th), case
insensitive. -/
def matchOrdSuffix : List Char → Option (List Char)
  | c1 :: c2 :: rest =>
    if (c1.toLower == 's' && c2.toLower == 't') ||
        (c1.toLower == 'n' && c2.toLower == 'd') ||
        (c1.toLower == 'r' && c2.toLower == 'd') ||
        (c1.toLower == 't' && c2.toLower == 'h') then
      some rest
    else none
  | _ => none

/-- Match of (\d{1,2})(?:st|nd|rd|th)\s*century at the head of the list,
case insensitive, with the regex backtracking from the greedy two-digit
read to one digit; returns the captured number and the remainder. -/
def matchCenturyAt : List Char → Option (Nat × List Char)
  | [] => none
  | c1 :: rest =>
    if c1.isDigit then
      match (match rest with
        | c2 :: rest2 =>
          if c2.isDigit then
            match matchOrdSuffix rest2 with
            | some r3 =>
              (matchLitCI ['c', 'e', 'n', 't', 'u', 'r', 'y']
                (r3.dropWhile isPySpace)).map
                (fun r4 => (charDigit c1 * 10 + charDigit c2, r4))
            | none => none
          else none
        | [] => none) with
      | some x => some x
      | none =>
        match matchOrdSuffix rest with
        | some r2 =>
          (matchLitCI ['c', 'e', 'n', 't', 'u', 'r', 'y']
            (r2.dropWhile isPySpace)).map
            (fun r3 => (charDigit c1, r3))
        | none => none
    else none

/-- Python re.findall of (\d{1,2})(?:st|nd|rd|th)\s*century, case
insensitive: captured century numbers left to right, non-overlapping.
The fuel starts at the input length and bounds the scan. -/
def findCenturiesAux : Nat → List Char → List Nat
  | 0, _ => []
  | _ + 1, [] => []
  | fuel + 1, c :: rest =>
    match matchCenturyAt (c :: rest) with
    | some (n, rem) => n :: findCenturiesAux fuel rem
    | none => findCenturiesAux fuel rest

def findCenturies (l : List Char) : List Nat := findCenturiesAux l.length l

/-- The widening test of harvard.py line 503: the lowercased original
input contains ca or circa as a plain substring. -/
def containsCaSubstring (s : String) : Bool :=
  containsSub ['c', 'a'] (pyLower s.data) ||
  containsSub ['c', 'i', 'r', 'c', 'a'] (pyLower s.data)

namespace Harvard

/-- parse_date (harvard.py lines 488-516).  Empty input gives
(None, None); otherwise circa markers are stripped, two or more
four-digit years give (first, last), exactly one gives that year widened
by 25 when the lowercased original contains the substring ca or circa,
and otherwise ordinal century matches on the original string give
(first century start, last century end). -/
def parse_date (s : String) : Option Int × Option Int :=
  if s.data.isEmpty then (none, none)
  else
    match findYears (stripCirca s.data) with
    | y1 :: y2 :: ys =>
      (some y1, some ((y2 :: ys).getLast (List.cons_ne_nil _ _)))
    | [y] =>
      if containsCaSubstring s then (some (y - 25), some (y + 25))
      else (some y, some y)
    | [] =>
      match findCenturies s.data with
      | c :: cs =>
        (some (((c : Int) - 1) * 100),
         some ((((c :: cs).getLast (List.cons_ne_nil _ _) : Int) - 1) * 100 + 99))
      | [] => (none, none)

end Harvard

theorem data_isEmpty_false_of_ne {s : String} (h : s ≠ "") :
    s.data.isEmpty = false := by
  cases hd : s.data with
  | nil => exact absurd (String.ext (by rw [hd])) h
  | cons c t => rfl

/-- Claim C4, amended: two or more four-digit years give (first, last);
exactly one four-digit year gives (year, year) unless the lowercased
input contains the substring ca anywhere — not only as a circa marker —
in which case the range is widened by 25 years on each side; the
round-trip examples hold, with the configured tolerance being 25. -/
theorem parse_date_round_trip :
    (∀ (s : String) (y1 y2 : Int) (ys : List Int), s ≠ "" →
      findYears (stripCirca s.data) = y1 :: y2 :: ys →
      Harvard.parse_date s =
        (some y1, some ((y2 :: ys).getLast (List.cons_ne_nil _ _)))) ∧
    (∀ (s : String) (y : Int), s ≠ "" →
      findYears (stripCirca s.data) = [y] → containsCaSubstring s = false →
      Harvard.parse_date s = (some y, some y)) ∧
    (∀ (s : String) (y : Int), s ≠ "" →
      findYears (stripCirca s.data) = [y] → containsCaSubstring s = true →
      Harvard.parse_date s = (some (y - 25), some (y + 25))) ∧
    Harvard.parse_date "1350" = (some 1350, some 1350) ∧
    Harvard.parse_date "1300-1400" = (some 1300, some 1400) ∧
    Harvard.parse_date "ca. 1420" = (some 1395, some 1445) ∧
    Harvard.parse_date "" = (none, none) := by
  refine ⟨?_, ?_, ?_, by decide, by decide, by decide, by decide⟩
  · intro s y1 y2 ys hne hyears
    unfold Harvard.parse_date
    rw [data_isEmpty_false_of_ne hne, hyears]
    rfl
  · intro s y hne hyears hca
    unfold Harvard.parse_date
    rw [data_isEmpty_false_of_ne hne, hyears, hca]
    rfl
  · intro s y hne hyears hca
    unfold Harvard.parse_date
    rw [data_isEmpty_false_of_ne hne, hyears, hca]
    rfl

/-- Witness for C4 amended, instantiating each quantified clause at the
round-trip examples. -/
theorem parse_date_round_trip_witness :
    Harvard.parse_date "1300-1400" = (some 1300, some 1400) ∧
    Harvard.parse_date "1350" = (some 1350, some 1350) ∧
    Harvard.parse_date "ca. 1420" = (some 1395, some 1445) :=
  ⟨parse_date_round_trip.1 "1300-1400" 1300 1400 [] (by decide) (by decide),
   parse_date_round_trip.2.1 "1350" 1350 (by decide) (by decide) (by decide),
   parse_date_round_trip.2.2.1 "ca. 1420" 1420 (by decide) (by decide)
     (by decide)⟩

/-- Claim C4 counterexample: the input Tuscany, 1350 carries no circa
marker — the marker-stripping regex removes nothing from it — and has
exactly one four-digit year, yet parse_date widens the year to
(1325, 1375) because the lowercased text contains the letters ca inside
the word Tuscany. -/
theorem parse_date_bare_year_widened_counterexample :
    Harvard.parse_date "Tuscany, 1350" = (some 1325, some 1375) ∧
    stripCirca "Tuscany, 1350".data = "Tuscany, 1350".data ∧
    (some (1325 : Int), some (1375 : Int)) ≠
      (some (1350 : Int), some (1350 : Int)) := by
  refine ⟨by decide, by decide, by decide⟩

/-- Match of a case-sensitive literal at the head of the list. -/
def matchLitCS : List Char → List Char → Option (List Char)
  | [], l => some l
  | _ :: _, [] => none
  | a :: lit, c :: rest => if c == a then matchLitCS lit rest else none

/-- First defined result of f over a list, in list order. -/
def firstSome {α β : Type} (f : α → Option β) : List α → Option β
  | [] => none
  | a :: rest =>
    match f a with
    | some b => some b
    | none => firstSome f rest

/-! ## UCLA date parsing

Translated from scripts/importers/ucla.py, lines 304-463
(ROMAN_NUMERALS, parse_roman_century, parse_date_range).  The Roman
numeral subpattern X{0,3}(?:IX|IV|V?I{0,3}) is modelled by enumerating
its possible matches at a position in the order the backtracking engine
tries them: the X run greedy from three down to zero, then the ordered
alternation IX, IV, V?I{0,3} with V taken first and the I run greedy. -/

namespace Ucla

def ROMAN_NUMERALS : List (String × Nat) :=
  [("I", 1), ("II", 2), ("III", 3), ("IV", 4), ("V", 5),
   ("VI", 6), ("VII", 7), ("VIII", 8), ("IX", 9), ("X", 10),
   ("XI", 11), ("XII", 12), ("XIII", 13), ("XIV", 14), ("XV", 15),
   ("XVI", 16), ("XVII", 17), ("XVIII", 18), ("XIX", 19), ("XX", 20)]

def pyUpper (l : List Char) : List Char := l.map Char.toUpper

/-- parse_roman_century (ucla.py lines 312-314): strip, uppercase, look
the string up in the numeral table. -/
def parse_roman_century (l : List Char) : Option Nat :=
  (ROMAN_NUMERALS.find? (fun p => p.1.data == pyUpper (pyStrip l))).map
    (fun p => p.2)

/-- Removal of parenthetical notes, re.sub of \([^)]*\) with the empty
string: each opening parenthesis with a closing one later is dropped
together with the span between them. -/
def splitAtCloseParen : List Char → Option (List Char)
  | [] => none
  | c :: rest => if c == ')' then some rest else splitAtCloseParen rest

def removeParensAux : Nat → List Char → List Char
  | 0, l => l
  | _ + 1, [] => []
  | fuel + 1, c :: rest =>
    if c == '(' then
      match splitAtCloseParen rest with
      | some rem => removeParensAux fuel rem
      | none => c :: removeParensAux fuel rest
    else c :: removeParensAux fuel rest

def removeParens (l : List Char) : List Char := removeParensAux l.length l

/-- Removal of a leading saeculum marker, re.sub of ^s\.?\s* with the
empty string, case insensitive. -/
def stripLeadingS (l : List Char) : List Char :=
  match l with
  | c :: rest =>
    if c.toLower == 's' then
      match rest with
      | '.' :: rest2 => rest2.dropWhile isPySpace
      | _ => rest.dropWhile isPySpace
    else l
  | [] => []

/-- Test of re.match of ^ca\.?\s, case insensitive: ca, an optional
dot, then one whitespace character. -/
def hasCircaMarker (l : List Char) : Bool :=
  match l with
  | c1 :: c2 :: rest =>
    if c1.toLower == 'c' && c2.toLower == 'a' then
      match rest with
      | c3 :: rest2 =>
        if c3 == '.' then
          match rest2 with
          | c4 :: _ => isPySpace c4
          | [] => false
        else isPySpace c3
      | [] => false
    else false
  | _ => false

/-- Removal of a leading circa marker, re.sub of ^ca\.?\s* with the
empty string, case insensitive. -/
def stripLeadingCirca (l : List Char) : List Char :=
  match l with
  | c1 :: c2 :: rest =>
    if c1.toLower == 'c' && c2.toLower == 'a' then
      match rest with
      | '.' :: rest2 => rest2.dropWhile isPySpace
      | _ => rest.dropWhile isPySpace
    else l
  | _ => l

/-- Expansion of the Unicode fraction and superscript characters the
source replaces before matching. -/
def expandChar (c : Char) : List Char :=
  if c == '¼' then ['1', '/', '4']
  else if c == '½' then ['1', '/', '2']
  else if c == '¾' then ['3', '/', '4']
  else if c == '²' then ['2']
  else if c == '¹' then ['1']
  else if c == '³' then ['3']
  else [c]

def unicodeNormalize (l : List Char) : List Char := (l.map expandChar).flatten

/-- Candidates for I{0,3} at the head of the list, greedy first. -/
def iCandidates (l : List Char) : List (List Char × List Char) :=
  (List.range (min 3 ((l.takeWhile (fun c => c.toLower == 'i')).length) + 1)).reverse.map
    (fun k => (l.take k, l.drop k))

/-- Candidates for the alternation (?:IX|IV|V?I{0,3}) in the order the
regex engine tries them. -/
def romTailCandidates (l : List Char) : List (List Char × List Char) :=
  (match l with
   | c1 :: c2 :: rest =>
     if c1.toLower == 'i' && c2.toLower == 'x' then [([c1, c2], rest)] else []
   | _ => []) ++
  (match l with
   | c1 :: c2 :: rest =>
     if c1.toLower == 'i' && c2.toLower == 'v' then [([c1, c2], rest)] else []
   | _ => []) ++
  (match l with
   | c :: rest =>
     if c.toLower == 'v' then
       (iCandidates rest).map (fun p => (c :: p.1, p.2))
     else []
   | [] => []) ++
  iCandidates l

/-- Candidates for X{0,3}(?:IX|IV|V?I{0,3}) in backtracking order. -/
def romCandidates (l : List Char) : List (List Char × List Char) :=
  ((List.range (min 3 ((l.takeWhile (fun c => c.toLower == 'x')).length) + 1)).reverse.map
    (fun k => (romTailCandidates (l.drop k)).map
      (fun p => (l.take k ++ p.1, p.2)))).flatten

/-- Match of \s*[-–]\s* at the head of the list. -/
def dashSpaces (l : List Char) : Option (List Char) :=
  match l.dropWhile isPySpace with
  | c :: rest =>
    if c == '-' || c == '–' then some (rest.dropWhile isPySpace) else none
  | [] => none

/-- Match of (?:\s|$) at the head of the list. -/
def endOrSpace : List Char → Bool
  | [] => true
  | c :: _ => isPySpace c

/-- Match of exactly four digits at the head of the list. -/
def matchDigits4 (l : List Char) : Option (Nat × List Char) :=
  match l with
  | a :: b :: c :: d :: rest =>
    if a.isDigit && b.isDigit && c.isDigit && d.isDigit then
      some (charDigit a * 1000 + charDigit b * 100 + charDigit c * 10 +
        charDigit d, rest)
    else none
  | _ => none

/-- Rule 1, ^(\d{4})\s*[-–]\s*(\d{4}): a year range. -/
def rule1 (l : List Char) : Option (Option Int × Option Int) :=
  match matchDigits4 l with
  | some (y1, r1) =>
    match dashSpaces r1 with
    | some r2 =>
      match matchDigits4 r2 with
      | some (y2, _) => some (some (y1 : Int), some (y2 : Int))
      | none => none
    | none => none
  | none => none

/-- Rule 2, ^(\d{4})\s*[-–]\s*(\d{1,2})(?:\s|$): an abbreviated range;
the end year is the start century prefix plus the short suffix. -/
def rule2 (l : List Char) : Option (Option Int × Option Int) :=
  match matchDigits4 l with
  | some (start, r1) =>
    match dashSpaces r1 with
    | some r2 =>
      match r2 with
      | a :: b :: rest =>
        if a.isDigit && b.isDigit && endOrSpace rest then
          some (some (start : Int),
            some ((start / 100 * 100 + (charDigit a * 10 + charDigit b) : Nat) : Int))
        else if a.isDigit && endOrSpace (b :: rest) then
          some (some (start : Int),
            some ((start / 100 * 100 + charDigit a : Nat) : Int))
        else none
      | [a] =>
        if a.isDigit then
          some (some (start : Int),
            some ((start / 100 * 100 + charDigit a : Nat) : Int))
        else none
      | [] => none
    | none => none
  | none => none

/-- Rule 3, ^(\d{4}): a single year, widened by ten when the input had a
circa prefix. -/
def rule3 (is_circa : Bool) (l : List Char) : Option (Option Int × Option Int) :=
  match matchDigits4 l with
  | some (y, _) =>
    if is_circa then some (some ((y : Int) - 10), some ((y : Int) + 10))
    else some (some (y : Int), some (y : Int))
  | none => none

/-- Rule 4, ^before\s+(\d{4}), case insensitive. -/
def rule4 (l : List Char) : Option (Option Int × Option Int) :=
  match matchLitCI ['b', 'e', 'f', 'o', 'r', 'e'] l with
  | some r1 =>
    match r1 with
    | c :: rest =>
      if isPySpace c then
        match matchDigits4 (rest.dropWhile isPySpace) with
        | some (y, _) => some (none, some (y : Int))
        | none => none
      else none
    | [] => none
  | none => none

/-- Rule 5, ^between\s+(\d{4})\s*[-–]\s*(\d{4}), case insensitive. -/
def rule5 (l : List Char) : Option (Option Int × Option Int) :=
  match matchLitCI ['b', 'e', 't', 'w', 'e', 'e', 'n'] l with
  | some r1 =>
    match r1 with
    | c :: rest =>
      if isPySpace c then
        match matchDigits4 (rest.dropWhile isPySpace) with
        | some (y1, r2) =>
          match dashSpaces r2 with
          | some r3 =>
            match matchDigits4 r3 with
            | some (y2, _) => some (some (y1 : Int), some (y2 : Int))
            | none => none
          | none => none
        | none => none
      else none
    | [] => none
  | none => none

/-- Rule 6, ^(ROM)\s*[-–]\s*(ROM)(?:\s|$): a Roman century range,
returned only when both groups are in the numeral table. -/
def rule6 (l : List Char) : Option (Option Int × Option Int) :=
  match firstSome (fun (p : List Char × List Char) =>
      match dashSpaces p.2 with
      | some r2 =>
        firstSome (fun (q : List Char × List Char) =>
          if endOrSpace q.2 then some (p.1, q.1) else none) (romCandidates r2)
      | none => none) (romCandidates l) with
  | some (g1, g2) =>
    match parse_roman_century g1, parse_roman_century g2 with
    | some c1, some c2 =>
      some (some (((c1 : Int) - 1) * 100), some ((c2 : Int) * 100 - 1))
    | _, _ => none
  | none => none

/-- Rule 7, ^(ROM)\s*(\d)/(\d): a Roman century with a fraction;
halves, quarters and thirds are handled, any other denominator falls
through to the next rule. -/
def rule7 (l : List Char) : Option (Option Int × Option Int) :=
  match firstSome (fun (p : List Char × List Char) =>
      match p.2.dropWhile isPySpace with
      | a :: sl :: b :: _ =>
        if a.isDigit && sl == '/' && b.isDigit then
          some (p.1, charDigit a, charDigit b)
        else none
      | _ => none) (romCandidates l) with
  | some (g1, num, denom) =>
    match parse_roman_century g1 with
    | some c =>
      let base : Int := ((c : Int) - 1) * 100
      if denom == 2 then
        if num == 1 then some (some base, some (base + 49))
        else some (some (base + 50), some (base + 99))
      else if denom == 4 then
        some (some (base + ((num : Int) - 1) * 25),
          some (base + min ((num : Int) * 25 - 1) 99))
      else if denom == 3 then
        some (some (base + ((num : Int) - 1) * 33),
          some (base + min ((num : Int) * 33 - 1) 99))
      else none
    | none => none
  | none => none

/-- Rule 8, ^(ROM)\s*(in|med|ex), case insensitive: beginning, middle or
end of a Roman century. -/
def rule8 (l : List Char) : Option (Option Int × Option Int) :=
  match firstSome (fun (p : List Char × List Char) =>
      let r2 := p.2.dropWhile isPySpace
      match matchLitCI ['i', 'n'] r2 with
      | some _ => some (p.1, 0)
      | none =>
        match matchLitCI ['m', 'e', 'd'] r2 with
        | some _ => some (p.1, 1)
        | none =>
          match matchLitCI ['e', 'x'] r2 with
          | some _ => some (p.1, 2)
          | none => none) (romCandidates l) with
  | some (g1, qual) =>
    match parse_roman_century g1 with
    | some c =>
      let base : Int := ((c : Int) - 1) * 100
      if qual == 0 then some (some base, some (base + 25))
      else if qual == 1 then some (some (base + 25), some (base + 74))
      else some (some (base + 75), some (base + 99))
    | none => none
  | none => none

/-- Rule 9, ^(ROM)\s+(\d)(?:\s|$): a Roman century with a bare half
digit, handled only for 1 and 2. -/
def rule9 (l : List Char) : Option (Option Int × Option Int) :=
  match firstSome (fun (p : List Char × List Char) =>
      match p.2 with
      | c :: rest =>
        if isPySpace c then
          match rest.dropWhile isPySpace with
          | a :: r3 =>
            if a.isDigit && endOrSpace r3 then some (p.1, charDigit a) else none
          | [] => none
        else none
      | [] => none) (romCandidates l) with
  | some (g1, num) =>
    match parse_roman_century g1 with
    | some c =>
      if num == 1 then
        some (some (((c : Int) - 1) * 100), some (((c : Int) - 1) * 100 + 49))
      else if num == 2 then
        some (some (((c : Int) - 1) * 100 + 50), some (((c : Int) - 1) * 100 + 99))
      else none
    | none => none
  | none => none

/-- Rule 10, ^(ROM)(?:\s|$): a bare Roman century. -/
def rule10 (l : List Char) : Option (Option Int × Option Int) :=
  match firstSome (fun (p : List Char × List Char) =>
      if endOrSpace p.2 then some p.1 else none) (romCandidates l) with
  | some g1 =>
    match parse_roman_century g1 with
    | some c => some (some (((c : Int) - 1) * 100), some ((c : Int) * 100 - 1))
    | none => none
  | none => none

/-- Match of (\d{1,2})(?:st|nd|rd|th)\s*[Cc]entury at the head of the
list: the suffix and the entury tail are lowercase in the pattern, only
the initial letter of century may be either case. -/
def matchCenturyAtCS : List Char → Option Nat
  | [] => none
  | c1 :: rest =>
    if c1.isDigit then
      match (match rest with
        | c2 :: rest2 =>
          if c2.isDigit then
            match matchLitCS ['s', 't'] rest2 <|> matchLitCS ['n', 'd'] rest2 <|>
                matchLitCS ['r', 'd'] rest2 <|> matchLitCS ['t', 'h'] rest2 with
            | some r3 =>
              match r3.dropWhile isPySpace with
              | c :: r4 =>
                if c == 'C' || c == 'c' then
                  (matchLitCS ['e', 'n', 't', 'u', 'r', 'y'] r4).map
                    (fun _ => charDigit c1 * 10 + charDigit c2)
                else none
              | [] => none
            | none => none
          else none
        | [] => none) with
      | some n => some n
      | none =>
        match matchLitCS ['s', 't'] rest <|> matchLitCS ['n', 'd'] rest <|>
            matchLitCS ['r', 'd'] rest <|> matchLitCS ['t', 'h'] rest with
        | some r2 =>
          match r2.dropWhile isPySpace with
          | c :: r3 =>
            if c == 'C' || c == 'c' then
              (matchLitCS ['e', 'n', 't', 'u', 'r', 'y'] r3).map
                (fun _ => charDigit c1)
            else none
          | [] => none
        | none => none
    else none

/-- Rule 11, re.search of (\d{1,2})(?:st|nd|rd|th)\s*[Cc]entury: the
first ordinal century anywhere in the string. -/
def rule11Aux : Nat → List Char → Option Nat
  | 0, _ => none
  | _ + 1, [] => none
  | fuel + 1, c :: rest =>
    match matchCenturyAtCS (c :: rest) with
    | some n => some n
    | none => rule11Aux fuel rest

def rule11 (l : List Char) : Option (Option Int × Option Int) :=
  match rule11Aux l.length l with
  | some c => some (some (((c : Int) - 1) * 100), some ((c : Int) * 100 - 1))
  | none => none

/-- parse_date_range (ucla.py lines 317-463): preprocessing (strip,
parenthetical removal, saeculum and circa prefixes, Unicode fraction
normalization) followed by the eleven rules in source order; the first
rule that matches and evaluates returns, everything else falls
through. -/
def parse_date_range (date_str : String) : Option Int × Option Int :=
  if date_str.data.isEmpty then (none, none)
  else
    let s0 := pyStrip date_str.data
    let s1 := pyStrip (removeParens s0)
    let s2 := stripLeadingS s1
    let is_circa := hasCircaMarker s2
    let s3 := stripLeadingCirca s2
    let s := unicodeNormalize s3
    match rule1 s with
    | some r => r
    | none =>
      match rule2 s with
      | some r => r
      | none =>
        match rule3 is_circa s with
        | some r => r
        | none =>
          match rule4 s with
          | some r => r
          | none =>
            match rule5 s with
            | some r => r
            | none =>
              match rule6 s with
              | some r => r
              | none =>
                match rule7 s with
                | some r => r
                | none =>
                  match rule8 s with
                  | some r => r
                  | none =>
                    match rule9 s with
                    | some r => r
                    | none =>
                      match rule10 s with
                      | some r => r
                      | none =>
                        match rule11 s with
                        | some r => r
                        | none => (none, none)

end Ucla

/-- The bare Roman numeral spelling of century N for N in 1..20, the
input family named by the century-marker claim (the inverse of the
source's ROMAN_NUMERALS table). -/
def romanNumeral (n : Nat) : String :=
  match n with
  | 1 => "I" | 2 => "II" | 3 => "III" | 4 => "IV" | 5 => "V"
  | 6 => "VI" | 7 => "VII" | 8 => "VIII" | 9 => "IX" | 10 => "X"
  | 11 => "XI" | 12 => "XII" | 13 => "XIII" | 14 => "XIV" | 15 => "XV"
  | 16 => "XVI" | 17 => "XVII" | 18 => "XVIII" | 19 => "XIX" | 20 => "XX"
  | _ => ""

/-- The ordinal spelling N-th century for N in 1..20, the other input
family named by the century-marker claim. -/
def ordinalCentury (n : Nat) : String :=
  match n with
  | 1 => "1st century" | 2 => "2nd century" | 3 => "3rd century"
  | 4 => "4th century" | 5 => "5th century" | 6 => "6th century"
  | 7 => "7th century" | 8 => "8th century" | 9 => "9th century"
  | 10 => "10th century" | 11 => "11th century" | 12 => "12th century"
  | 13 => "13th century" | 14 => "14th century" | 15 => "15th century"
  | 16 => "16th century" | 17 => "17th century" | 18 => "18th century"
  | 19 => "19th century" | 20 => "20th century"
  | _ => ""

/-- Claim C3 counterexample: no function named parse_date handles Roman
numerals; Harvard's parse_date returns (None, None) on the input XV
instead of the claimed (1400, 1499).  Roman numerals are handled only by
the differently named parse_date_range in the UCLA importer. -/
theorem parse_date_roman_counterexample :
    Harvard.parse_date "XV" = (none, none) ∧
    Harvard.parse_date "XV" ≠ (some 1400, some 1499) := by
  refine ⟨by decide, by decide⟩

/-- Claim C3, amended: for every century N in 1..20, the ordinal marker
maps to ((N-1)*100, N*100-1) under Harvard's parse_date and the Roman
numeral maps to the same pair under UCLA's parse_date_range; Harvard's
parse_date does not recognise bare Roman numerals.  A Roman range such
as XIII-XVII spans start-of-first to end-of-last in parse_date_range,
and so does an ordinal range in parse_date when each century carries its
own century keyword; a hyphenated ordinal range sharing one century
keyword yields only the last century's window. -/
theorem century_markers_spec :
    (∀ n : Nat, n < 21 → 0 < n →
      Harvard.parse_date (ordinalCentury n) =
        (some (((n : Int) - 1) * 100), some ((n : Int) * 100 - 1))) ∧
    (∀ n : Nat, n < 21 → 0 < n →
      Ucla.parse_date_range (romanNumeral n) =
        (some (((n : Int) - 1) * 100), some ((n : Int) * 100 - 1))) ∧
    Harvard.parse_date "XV" = (none, none) ∧
    Ucla.parse_date_range "XV" = (some 1400, some 1499) ∧
    Ucla.parse_date_range "XIII-XVII" = (some 1200, some 1699) ∧
    Harvard.parse_date "14th century-15th century" = (some 1300, some 1499) ∧
    Harvard.parse_date "14th-15th century" = (some 1400, some 1499) := by
  refine ⟨by decide, by decide, by decide, by decide, by decide, by decide,
    by decide⟩

/-- Witness for C3 amended at century 15: the worked example of the
spec, 15th century and XV both map to (1400, 1499). -/
theorem century_markers_spec_witness :
    Harvard.parse_date (ordinalCentury 15) =
      (some ((((15 : Nat) : Int) - 1) * 100), some (((15 : Nat) : Int) * 100 - 1)) ∧
    Ucla.parse_date_range (romanNumeral 15) =
      (some ((((15 : Nat) : Int) - 1) * 100), some (((15 : Nat) : Int) * 100 - 1)) :=
  ⟨century_markers_spec.1 15 (by decide) (by decide),
   century_markers_spec.2.1 15 (by decide) (by decide)⟩

/-! ## JSON values and the metadata extractors

A small model of the JSON values the manifests carry.  Python raises on
shapes outside the IIIF contract (for example iterating a number); the
model instead uses total lookups with defaults, which agree with the
source on every shape the functions are specified and exercised on. -/

inductive JVal where
  | str (s : String)
  | num (n : Int)
  | bool (b : Bool)
  | obj (fields : List (String × JVal))
  | arr (elems : List JVal)
  | null

/-- Lookup in a JSON object field list, Python dict.get with None. -/
def jGet (fields : List (String × JVal)) (key : String) : Option JVal :=
  (fields.find? (fun p => p.1 == key)).map (fun p => p.2)

/-- Python entry.get(key, default) on an object. -/
def jGetD (v : JVal) (key : String) (dflt : JVal) : JVal :=
  match v with
  | JVal.obj fields => (jGet fields key).getD dflt
  | _ => dflt

/-- The apostrophe character, used by the Python repr of strings. -/
def quoteChar : Char := '\x27'

def pyQuote (s : String) : String :=
  String.mk (quoteChar :: (s.data ++ [quoteChar]))

mutual
/-- Python repr of a JSON value: single-quoted strings, dicts rendered
with braces, lists with brackets, None, True and False. -/
def pyRepr : JVal → String
  | JVal.str s => pyQuote s
  | JVal.num n => toString n
  | JVal.bool b => if b then "True" else "False"
  | JVal.null => "None"
  | JVal.obj fields => "\x7b" ++ pyReprFields fields ++ "\x7d"
  | JVal.arr elems => "[" ++ pyReprElems elems ++ "]"

def pyReprFields : List (String × JVal) → String
  | [] => ""
  | [(k, v)] => pyQuote k ++ ": " ++ pyRepr v
  | (k, v) :: rest => pyQuote k ++ ": " ++ pyRepr v ++ ", " ++ pyReprFields rest

def pyReprElems : List JVal → String
  | [] => ""
  | [v] => pyRepr v
  | v :: rest => pyRepr v ++ ", " ++ pyReprElems rest
end

/-- Python str() of a JSON value: the string itself for strings, the
repr for everything else. -/
def pyStr : JVal → String
  | JVal.str s => s
  | v => pyRepr v

/-- Resolution of a JSON value to a string when it is one. -/
def asStrOpt : JVal → Option String
  | JVal.str s => some s
  | _ => none

/-- Python "; ".join of a string list. -/
def joinSemicolon : List String → String
  | [] => ""
  | [a] => a
  | a :: rest => a ++ "; " ++ joinSemicolon rest

/-- Remainder of the list after the first closing angle bracket. -/
def splitAtGt : List Char → Option (List Char)
  | [] => none
  | c :: rest => if c == '>' then some rest else splitAtGt rest

/-- Python re.sub of <[^>]+> with a single space: every angle-bracket
tag with non-empty body is replaced by one space. -/
def stripTagsAux : Nat → List Char → List Char
  | 0, l => l
  | _ + 1, [] => []
  | fuel + 1, c :: rest =>
    if c == '<' then
      match rest with
      | d :: _ =>
        if d == '>' then c :: stripTagsAux fuel rest
        else
          match splitAtGt rest with
          | some rem => ' ' :: stripTagsAux fuel rem
          | none => c :: stripTagsAux fuel rest
      | [] => [c]
    else c :: stripTagsAux fuel rest

def stripTags (l : List Char) : List Char := stripTagsAux l.length l

/-- Python re.sub of \s+ with a single space: each whitespace run
becomes one space.  The flag records being inside a run. -/
def collapseWsAux (inRun : Bool) : List Char → List Char
  | [] => []
  | c :: rest =>
    if isPySpace c then
      if inRun then collapseWsAux true rest
      else ' ' :: collapseWsAux true rest
    else c :: collapseWsAux false rest

def collapseWs (l : List Char) : List Char := collapseWsAux false l

/-- The shared tail of the extractors: strip markup tags, collapse
whitespace, strip, and return None for the empty string. -/
def cleanValue (s : String) : Option String :=
  let v := pyStrip (collapseWs (stripTags s.data))
  if v.isEmpty then none else some (String.mk v)

namespace Harvard

/-- The for-loop over a list-shaped label (harvard.py lines 427-434):
the first dict element yields its @value (default empty string), the
first string element yields itself, other elements are skipped; without
a break the label keeps its list shape. -/
def firstLabelFromList : List JVal → Option JVal
  | [] => none
  | JVal.obj fields :: _ => some ((jGet fields "@value").getD (JVal.str ""))
  | JVal.str s :: _ => some (JVal.str s)
  | _ :: rest => firstLabelFromList rest

/-- Label normalization of harvard.py lines 422-434: a dict label is
replaced by its @value (default its str()), then a list label by its
first dict-or-string element. -/
def resolveLabel (lbl : JVal) : JVal :=
  let l1 := match lbl with
    | JVal.obj fields => (jGet fields "@value").getD (JVal.str (pyRepr lbl))
    | _ => lbl
  match l1 with
  | JVal.arr elems => (firstLabelFromList elems).getD (JVal.arr elems)
  | _ => l1

/-- One element of a list-shaped value (harvard.py lines 443-447): a
dict contributes its @value (default its str()), anything else its
str(). -/
def valuePart : JVal → String
  | JVal.obj fields => pyStr ((jGet fields "@value").getD
      (JVal.str (pyRepr (JVal.obj fields))))
  | v => pyStr v

/-- Value normalization of harvard.py lines 440-453: a list is joined
with semicolons from its parts, then a dict is replaced by its @value
(default its str()), and the result is rendered with str(). -/
def normValue (v : JVal) : String :=
  let v1 : JVal := match v with
    | JVal.arr elems => JVal.str (joinSemicolon (elems.map valuePart))
    | _ => v
  let v2 : JVal := match v1 with
    | JVal.obj fields => (jGet fields "@value").getD (JVal.str (pyRepr v1))
    | _ => v1
  pyStr v2

/-- extract_metadata_value (harvard.py lines 419-457; parker.py carries
an identical copy): scan the metadata entries; on the first entry whose
normalized label equals the requested label up to case and surrounding
whitespace, normalize the value, strip markup, collapse whitespace and
return it, with None for an empty result; None when no entry matches. -/
def extract_metadata_value (metadata : List JVal) (label : String) :
    Option String :=
  match metadata with
  | [] => none
  | entry :: rest =>
    match asStrOpt (resolveLabel (jGetD entry "label" (JVal.str ""))) with
    | none => extract_metadata_value rest label
    | some ls =>
      if pyStrip (pyLower ls.data) == pyStrip (pyLower label.data) then
        cleanValue (normValue (jGetD entry "value" (JVal.str "")))
      else extract_metadata_value rest label

end Harvard

namespace Cambridge

/-- Value normalization of cambridge.py lines 115-118: a list is joined
with semicolons from the str() of its elements — dict elements are not
unwrapped — then a dict is replaced by its @value (default its
str()). -/
def normValue (v : JVal) : String :=
  let v1 : JVal := match v with
    | JVal.arr elems => JVal.str (joinSemicolon (elems.map pyStr))
    | _ => v
  let v2 : JVal := match v1 with
    | JVal.obj fields => (jGet fields "@value").getD (JVal.str (pyRepr v1))
    | _ => v1
  pyStr v2

/-- extract_metadata_value (cambridge.py lines 106-123): only a dict
label is unwrapped to its @value (default empty string); the comparison
with the requested label is plain equality, case sensitive; list labels
keep their list shape and never match. -/
def extract_metadata_value (metadata : List JVal) (label : String) :
    Option String :=
  match metadata with
  | [] => none
  | entry :: rest =>
    let el := match jGetD entry "label" (JVal.str "") with
      | JVal.obj fields => (jGet fields "@value").getD (JVal.str "")
      | other => other
    match el with
    | JVal.str s =>
      if s == label then cleanValue (normValue (jGetD entry "value" (JVal.str "")))
      else extract_metadata_value rest label
    | _ => extract_metadata_value rest label

end Cambridge

namespace Nlw

/-- Match of one element of a bilingual label array against the
requested label (nlw.py lines 311-321), case and surrounding-whitespace
insensitive. -/
def labelElemMatches (label : String) : JVal → Bool
  | JVal.obj fields =>
    match (jGet fields "@value").getD (JVal.str "") with
    | JVal.str s => pyStrip (pyLower s.data) == pyStrip (pyLower label.data)
    | _ => false
  | JVal.str s => pyStrip (pyLower s.data) == pyStrip (pyLower label.data)
  | _ => false

/-- Label match of nlw.py lines 308-332 over the possible shapes. -/
def entryMatches (label : String) : JVal → Bool
  | JVal.arr elems => elems.any (labelElemMatches label)
  | JVal.obj fields =>
    match (jGet fields "@value").getD (JVal.str "") with
    | JVal.str s => pyStrip (pyLower s.data) == pyStrip (pyLower label.data)
    | _ => false
  | JVal.str s => pyStrip (pyLower s.data) == pyStrip (pyLower label.data)
  | _ => false

/-- The early return of nlw.py lines 336-338: the first dict element of
a list value yields its @value (default its str()) without any markup
stripping. -/
def firstDictValue : List JVal → Option String
  | [] => none
  | JVal.obj fields :: _ =>
    some (pyStr ((jGet fields "@value").getD
      (JVal.str (pyRepr (JVal.obj fields)))))
  | _ :: rest => firstDictValue rest

/-- extract_metadata_value (nlw.py lines 300-347): bilingual label
arrays match when any element matches; a list value returns the first
dict element's @value raw, otherwise the str() join of the elements goes
through the markup cleanup; a matching entry always returns. -/
def extract_metadata_value (metadata : List JVal) (label : String) :
    Option String :=
  match metadata with
  | [] => none
  | entry :: rest =>
    if entryMatches label (jGetD entry "label" (JVal.str "")) then
      match jGetD entry "value" (JVal.str "") with
      | JVal.arr elems =>
        match firstDictValue elems with
        | some v => some v
        | none => cleanValue (joinSemicolon (elems.map pyStr))
      | JVal.obj fields =>
        cleanValue (pyStr ((jGet fields "@value").getD
          (JVal.str (pyRepr (JVal.obj fields)))))
      | other => cleanValue (pyStr other)
    else extract_metadata_value rest label

end Nlw

/-! ### Extractor tolerance -/

/-- The four encodings of a label string named by the tolerance claim:
bare string, single language object, and a list of either. -/
def labelEncodings (t : String) : List JVal :=
  [JVal.str t, JVal.obj [("@value", JVal.str t)], JVal.arr [JVal.str t],
   JVal.arr [JVal.obj [("@value", JVal.str t)]]]

/-- The four encodings of a value string named by the tolerance claim. -/
def valueEncodings (v : String) : List JVal :=
  [JVal.str v, JVal.obj [("@value", JVal.str v)], JVal.arr [JVal.str v],
   JVal.arr [JVal.obj [("@value", JVal.str v)]]]

/-- A metadata entry with the given label and value. -/
def mkEntry (l v : JVal) : JVal :=
  JVal.obj [("label", l), ("value", v)]

theorem jGetD_mkEntry_label (l v : JVal) :
    jGetD (mkEntry l v) "label" (JVal.str "") = l := by
  simp [mkEntry, jGetD, jGet, List.find?]

theorem jGetD_mkEntry_value (l v : JVal) :
    jGetD (mkEntry l v) "value" (JVal.str "") = v := by
  simp [mkEntry, jGetD, jGet, List.find?]

theorem resolveLabel_encodings (t : String) (le : JVal)
    (h : le ∈ labelEncodings t) : Harvard.resolveLabel le = JVal.str t := by
  simp only [labelEncodings, List.mem_cons, List.not_mem_nil, or_false] at h
  rcases h with rfl | rfl | rfl | rfl <;>
    simp [Harvard.resolveLabel, Harvard.firstLabelFromList, jGet, List.find?]

theorem normValue_encodings (v : String) (ve : JVal)
    (h : ve ∈ valueEncodings v) : Harvard.normValue ve = v := by
  simp only [valueEncodings, List.mem_cons, List.not_mem_nil, or_false] at h
  rcases h with rfl | rfl | rfl | rfl <;>
    simp [Harvard.normValue, Harvard.valuePart, jGet, List.find?, pyStr,
      joinSemicolon]

theorem harvard_extract_entry_encodings (t v q : String) (le ve : JVal)
    (suf : List JVal) (hl : le ∈ labelEncodings t)
    (hv : ve ∈ valueEncodings v) :
    Harvard.extract_metadata_value (mkEntry le ve :: suf) q =
    Harvard.extract_metadata_value (mkEntry (JVal.str t) (JVal.str v) :: suf) q := by
  have h1 := resolveLabel_encodings t le hl
  have h2 := normValue_encodings v ve hv
  simp only [Harvard.extract_metadata_value, jGetD_mkEntry_label,
    jGetD_mkEntry_value, h1, h2]
  have h3 : Harvard.resolveLabel (JVal.str t) = JVal.str t := rfl
  have h4 : Harvard.normValue (JVal.str v) = v := rfl
  rw [h3, h4]

theorem harvard_extract_encodings (t v q : String) (le ve : JVal)
    (pre suf : List JVal) (hl : le ∈ labelEncodings t)
    (hv : ve ∈ valueEncodings v) :
    Harvard.extract_metadata_value (pre ++ mkEntry le ve :: suf) q =
    Harvard.extract_metadata_value (pre ++ mkEntry (JVal.str t) (JVal.str v) :: suf) q := by
  induction pre with
  | nil => exact harvard_extract_entry_encodings t v q le ve suf hl hv
  | cons e pre ih =>
    simp only [List.cons_append, Harvard.extract_metadata_value]
    cases asStrOpt (Harvard.resolveLabel (jGetD e "label" (JVal.str ""))) with
    | none => exact ih
    | some ls =>
      by_cases hC : (pyStrip (pyLower ls.data) == pyStrip (pyLower q.data)) = true
      · simp [hC]
      · simp only [hC, Bool.false_eq_true, if_false]
        exact ih

theorem harvard_extract_label_normalized (entries : List JVal) (q1 q2 : String)
    (h : pyStrip (pyLower q1.data) = pyStrip (pyLower q2.data)) :
    Harvard.extract_metadata_value entries q1 =
    Harvard.extract_metadata_value entries q2 := by
  induction entries with
  | nil => rfl
  | cons e rest ih =>
    simp only [Harvard.extract_metadata_value]
    cases asStrOpt (Harvard.resolveLabel (jGetD e "label" (JVal.str ""))) with
    | none => exact ih
    | some ls =>
      rw [h]
      by_cases hC : (pyStrip (pyLower ls.data) == pyStrip (pyLower q2.data)) = true
      · simp [hC]
      · simp only [hC, Bool.false_eq_true, if_false]
        exact ih

/-- Claim C7, amended: Harvard's extract_metadata_value (and Parker's
identical copy) returns the same result whichever of the four encodings
carries the label and the value, anywhere in the metadata list, and its
label match is case- and surrounding-whitespace-insensitive; both
worked examples yield Latin there and under NLW's variant.  Cambridge's
variant matches only the plain-and-object example: its label comparison
is case-sensitive exact equality and its list values are rendered with
str() instead of being unwrapped. -/
theorem extract_metadata_value_tolerance :
    (∀ (t v q : String) (le ve : JVal) (pre suf : List JVal),
      le ∈ labelEncodings t → ve ∈ valueEncodings v →
      Harvard.extract_metadata_value (pre ++ mkEntry le ve :: suf) q =
        Harvard.extract_metadata_value
          (pre ++ mkEntry (JVal.str t) (JVal.str v) :: suf) q) ∧
    (∀ (entries : List JVal) (q1 q2 : String),
      pyStrip (pyLower q1.data) = pyStrip (pyLower q2.data) →
      Harvard.extract_metadata_value entries q1 =
        Harvard.extract_metadata_value entries q2) ∧
    Harvard.extract_metadata_value
      [mkEntry (JVal.str "Language") (JVal.str "Latin")] "Language" =
      some "Latin" ∧
    Harvard.extract_metadata_value
      [mkEntry (JVal.obj [("@value", JVal.str "Language")])
        (JVal.arr [JVal.obj [("@value", JVal.str "Latin")]])] "Language" =
      some "Latin" ∧
    Nlw.extract_metadata_value
      [mkEntry (JVal.str "Language") (JVal.str "Latin")] "Language" =
      some "Latin" ∧
    Nlw.extract_metadata_value
      [mkEntry (JVal.obj [("@value", JVal.str "Language")])
        (JVal.arr [JVal.obj [("@value", JVal.str "Latin")]])] "Language" =
      some "Latin" ∧
    Cambridge.extract_metadata_value
      [mkEntry (JVal.str "Language") (JVal.str "Latin")] "Language" =
      some "Latin" :=
  ⟨harvard_extract_encodings, harvard_extract_label_normalized,
   by decide, by decide, by decide, by decide, by decide⟩

/-- Claim C7 counterexample: Cambridge's extract_metadata_value maps the
object-and-list encoding of the worked example to the Python repr of the
value dict, not to Latin, and its label match is case sensitive. -/
theorem cambridge_extract_counterexample :
    Cambridge.extract_metadata_value
      [mkEntry (JVal.obj [("@value", JVal.str "Language")])
        (JVal.arr [JVal.obj [("@value", JVal.str "Latin")]])] "Language" =
      some (pyRepr (JVal.obj [("@value", JVal.str "Latin")])) ∧
    pyRepr (JVal.obj [("@value", JVal.str "Latin")]) ≠ "Latin" ∧
    Cambridge.extract_metadata_value
      [mkEntry (JVal.str "language") (JVal.str "Latin")] "Language" = none := by
  refine ⟨by decide, by decide, by decide⟩

/-- Witness for C7 amended: the two encodings of the worked example give
the same result under Harvard's extractor, and two spellings of the
requested label differing in case and padding give the same result. -/
theorem extract_metadata_value_tolerance_witness :
    Harvard.extract_metadata_value
      [mkEntry (JVal.obj [("@value", JVal.str "Language")])
        (JVal.arr [JVal.obj [("@value", JVal.str "Latin")]])] "Language" =
      Harvard.extract_metadata_value
        [mkEntry (JVal.str "Language") (JVal.str "Latin")] "Language" ∧
    Harvard.extract_metadata_value
      [mkEntry (JVal.str "Language") (JVal.str "Latin")] " LANGUAGE " =
      Harvard.extract_metadata_value
        [mkEntry (JVal.str "Language") (JVal.str "Latin")] "language" :=
  ⟨extract_metadata_value_tolerance.1 "Language" "Latin" "Language"
      (JVal.obj [("@value", JVal.str "Language")])
      (JVal.arr [JVal.obj [("@value", JVal.str "Latin")]]) [] []
      (List.mem_cons_of_mem _ (List.mem_cons_self _ _))
      (List.mem_cons_of_mem _ (List.mem_cons_of_mem _
        (List.mem_cons_of_mem _ (List.mem_cons_self _ _)))),
   extract_metadata_value_tolerance.2.1 _ " LANGUAGE " "language" (by decide)⟩

/-! ## Record builder

Translated from parse_manifest and its helpers in harvard.py (lines
528-630) and parker.py (lines 470-560), together with the
title-truncation lines the spec cites from parker.py (506-512),
cambridge.py (282-284) and lambeth.py (144-146). -/

/-- Python truthiness of a JSON value: empty strings, empty containers,
zero, False and None are falsy. -/
def jTruthy : JVal → Bool
  | JVal.str s => !s.isEmpty
  | JVal.num n => n != 0
  | JVal.bool b => b
  | JVal.obj fields => !fields.isEmpty
  | JVal.arr elems => !elems.isEmpty
  | JVal.null => false

/-- Python falsiness of an optional string: None or the empty string. -/
def optFalsy : Option String → Bool
  | none => true
  | some s => s.isEmpty

/-- Python x or y on two dict lookups, rendered with str(): the first
truthy value wins, else the second lookup (possibly None). -/
def pyOrStr (a b : Option JVal) : Option String :=
  match (match a with
    | some v => if jTruthy v then some v else b
    | none => b) with
  | some v => some (pyStr v)
  | none => none

/-- A canonical record as parse_manifest builds it: the keys that are
always present are plain, the conditional ones optional. -/
structure ParsedRecord where
  shelfmark : String
  collection : String
  contents : Option String
  date_display : Option String
  date_start : Option Int
  date_end : Option Int
  folios : Option String
  language : Option String
  provenance : Option String
  thumbnail_url : Option String
  image_count : Option Int
  iiif_manifest_url : String
  source_url : String

namespace Parker

/-- The contents truncation of parker.py lines 510-511: text longer than
1000 characters becomes its first 997 characters plus an ellipsis. -/
def truncateContents (title : String) : String :=
  if title.length > 1000 then String.mk (title.data.take 997) ++ "..."
  else title

end Parker

namespace Cambridge

/-- The contents truncation of cambridge.py lines 283-284, identical in
form to Parker's. -/
def truncateContents (title : String) : String :=
  if title.length > 1000 then String.mk (title.data.take 997) ++ "..."
  else title

end Cambridge

namespace Lambeth

/-- The contents truncation of lambeth.py line 146: text longer than
1000 characters is cut to its first 1000 characters, with no ellipsis
appended. -/
def truncateContents (title : String) : String :=
  if title.length > 1000 then String.mk (title.data.take 1000)
  else title

end Lambeth

namespace Harvard

/-- Case-insensitive literal match keeping the original characters. -/
def matchLitCIKeep : List Char → List Char → Option (List Char × List Char)
  | [], l => some ([], l)
  | _ :: _, [] => none
  | a :: lit, c :: rest =>
    if c.toLower == a.toLower then
      (matchLitCIKeep lit rest).map (fun p => (c :: p.1, p.2))
    else none

/-- Match of one shelfmark pattern prefix \d+[A-Za-z]* with an optional
(?:\.\d+)? tail at the head of the list (harvard.py lines 140-154);
returns the captured text. -/
def matchShelfmarkAt (pat : List Char) (dotNum : Bool) (l : List Char) :
    Option (List Char) :=
  match matchLitCIKeep pat l with
  | some (orig, r1) =>
    let ds := r1.takeWhile Char.isDigit
    if ds.isEmpty then none
    else
      let r2 := r1.drop ds.length
      let ls := r2.takeWhile Char.isAlpha
      let r3 := r2.drop ls.length
      let dot : List Char :=
        if dotNum then
          match r3 with
          | '.' :: r4 =>
            let ds2 := r4.takeWhile Char.isDigit
            if ds2.isEmpty then [] else '.' :: ds2
          | _ => []
        else []
      some (orig ++ ds ++ ls ++ dot)
  | none => none

/-- Python re.search for a shelfmark pattern: the leftmost match. -/
def searchShelfmarkPattern (pat : List Char) (dotNum : Bool) :
    Nat → List Char → Option (List Char)
  | 0, _ => none
  | _ + 1, [] => none
  | fuel + 1, c :: rest =>
    match matchShelfmarkAt pat dotNum (c :: rest) with
    | some cap => some cap
    | none => searchShelfmarkPattern pat dotNum fuel rest

/-- The ordered pattern list of extract_shelfmark_from_label
(harvard.py lines 140-154); the Bool marks the two Typ patterns with the
optional dotted suffix. -/
def shelfmarkPatterns : List (String × Bool) :=
  [("MS Lat ", false), ("MS Typ ", true), ("MS Gr ", false),
   ("MS Richardson ", false), ("MS Ital ", false), ("MS Span ", false),
   ("MS Eng ", false), ("MS Fr ", false), ("MS Ger ", false),
   ("MS Hebrew ", false), ("MS Arab ", false), ("MS Riant ", false),
   ("Typ ", true)]

/-- extract_shelfmark_from_label (harvard.py lines 130-161): the first
pattern with a match anywhere in the label wins, case insensitively,
capturing the original text. -/
def extract_shelfmark_from_label (label : String) : Option String :=
  firstSome (fun p : String × Bool =>
    (searchShelfmarkPattern p.1.data p.2 label.data.length label.data).map
      String.mk) shelfmarkPatterns

/-- COLLECTION_MAPPING (harvard.py lines 76-89): shelfmark prefix
patterns to collection names, in source order. -/
def COLLECTION_MAPPING : List (String × String) :=
  [("MS Lat", "Latin"), ("MS Typ", "Typographic"), ("MS Gr", "Greek"),
   ("MS Richardson", "Richardson"), ("MS Ital", "Italian"),
   ("MS Span", "Spanish"), ("MS Eng", "English"), ("MS Fr", "French"),
   ("MS Ger", "German"), ("MS Hebrew", "Hebrew"), ("MS Arab", "Arabic"),
   ("MS Riant", "Riant")]

/-- get_collection_from_shelfmark (harvard.py lines 164-169): the first
prefix that matches case-insensitively names the collection, with the
fallback Manuscripts. -/
def get_collection_from_shelfmark (shelfmark : String) : String :=
  match firstSome (fun p : String × String =>
      if (pyLower p.1.data).isPrefixOf (pyLower shelfmark.data) then some p.2
      else none) COLLECTION_MAPPING with
  | some c => c
  | none => "Manuscripts"

/-- Python str.find of a substring: its first index, None for absent
(the source compares the result with 0). -/
def pyFindAux (sub : List Char) : Nat → List Char → Option Nat
  | i, [] => if sub.isEmpty then some i else none
  | i, c :: rest =>
    if sub.isPrefixOf (c :: rest) then some i else pyFindAux sub (i + 1) rest

def pyFind (sub l : List Char) : Option Nat := pyFindAux sub 0 l

/-- Python str.rstrip with an explicit character set. -/
def rstripSet (set : List Char) (l : List Char) : List Char :=
  (l.reverse.dropWhile (fun c => set.contains c)).reverse

/-- Removal of the Houghton Library suffix, re.sub of
\s*Houghton Library.*$ with the empty string, case insensitive: cut at
the first occurrence of the phrase together with the whitespace run
immediately before it. -/
def removeHoughtonSuffix (l : List Char) : List Char :=
  match pyFind (pyLower "Houghton Library".data) (pyLower l) with
  | none => l
  | some k => ((l.take k).reverse.dropWhile isPySpace).reverse

/-- extract_title_from_label (harvard.py lines 181-209): cut the label
before the shelfmark when the shelfmark occurs past the start, strip
trailing punctuation, drop a Houghton Library suffix, and truncate long
results to 997 characters plus an ellipsis. -/
def extract_title_from_label (label shelfmark : String) : String :=
  if label.data.isEmpty then ""
  else
    let l1 := match pyFind shelfmark.data label.data with
      | some idx => if idx > 0 then pyStrip (label.data.take idx) else label.data
      | none => label.data
    let l2 := rstripSet ['.', ',', ';', ':', ' '] l1
    let l3 := removeHoughtonSuffix l2
    if l3.length > 1000 then String.mk (l3.take 997) ++ "..."
    else String.mk l3

/-- Content of the first bracket pair, up to the first closing bracket,
with the remainder after it. -/
def bracketSegment : List Char → Option (List Char × List Char)
  | [] => none
  | c :: rest =>
    if c == ']' then some ([], rest)
    else (bracketSegment rest).map (fun p => (c :: p.1, p.2))

/-- extract_date_from_label (harvard.py lines 212-222), re.search of
\[([^\]]*\d[^\]]*)\]: the first bracketed segment containing a digit. -/
def extractDateAux : Nat → List Char → Option (List Char)
  | 0, _ => none
  | _ + 1, [] => none
  | fuel + 1, c :: rest =>
    if c == '[' then
      match bracketSegment rest with
      | some (seg, _) =>
        if seg.any Char.isDigit then some seg else extractDateAux fuel rest
      | none => extractDateAux fuel rest
    else extractDateAux fuel rest

def extract_date_from_label (label : String) : Option String :=
  (extractDateAux label.data.length label.data).map String.mk

/-- extract_thumbnail_url (harvard.py lines 460-485): the manifest-level
thumbnail id when the thumbnail is a dict or a non-empty list of dicts,
else the first canvas image service id with resize parameters. -/
def extract_thumbnail_url (manifest : JVal) : Option String :=
  let thumb := jGetD manifest "thumbnail" JVal.null
  let fromThumb : Option (Option String) :=
    if jTruthy thumb then
      match thumb with
      | JVal.obj fields => some (pyOrStr (jGet fields "@id") (jGet fields "id"))
      | JVal.arr (t :: _) =>
        some (match t with
          | JVal.obj fields => pyOrStr (jGet fields "@id") (jGet fields "id")
          | _ => none)
      | _ => none
    else none
  match fromThumb with
  | some r => r
  | none =>
    match jGetD manifest "sequences" (JVal.arr []) with
    | JVal.arr (s0 :: _) =>
      match jGetD s0 "canvases" (JVal.arr []) with
      | JVal.arr (c0 :: _) =>
        match jGetD c0 "images" (JVal.arr []) with
        | JVal.arr (i0 :: _) =>
          let resource := jGetD i0 "resource" (JVal.obj [])
          let service := jGetD resource "service" (JVal.obj [])
          let service2 := match service with
            | JVal.arr (sv :: _) => sv
            | JVal.arr [] => JVal.obj []
            | other => other
          match service2 with
          | JVal.obj fields =>
            match pyOrStr (jGet fields "@id") (jGet fields "id") with
            | some sid =>
              if sid.isEmpty then none
              else some (sid ++ "/full/200,/0/default.jpg")
            | none => none
          | _ => none
        | _ => none
      | _ => none
    | _ => none

/-- count_canvases (harvard.py lines 519-525): the length of the first
sequence's canvas list, zero without sequences. -/
def count_canvases (manifest : JVal) : Nat :=
  match jGetD manifest "sequences" (JVal.arr []) with
  | JVal.arr (s0 :: _) =>
    match jGetD s0 "canvases" (JVal.arr []) with
    | JVal.arr cs => cs.length
    | JVal.obj fields => fields.length
    | JVal.str s => s.length
    | _ => 0
  | _ => 0

/-- The label resolution at the top of parse_manifest (harvard.py lines
542-548): a dict label becomes its @value (default its str()), then a
list label its first element (empty string for an empty list), and a
dict first element its @value.  A label of any other shape would make
the regex search raise in Python; the model renders it with str(). -/
def manifestLabel (manifest : JVal) : String :=
  let label0 := jGetD manifest "label" (JVal.str "")
  let label1 := match label0 with
    | JVal.obj fields => (jGet fields "@value").getD (JVal.str (pyRepr label0))
    | _ => label0
  let label2 := match label1 with
    | JVal.arr [] => JVal.str ""
    | JVal.arr (l0 :: _) =>
      match l0 with
      | JVal.obj fields => (jGet fields "@value").getD (JVal.str "")
      | other => other
    | other => other
  pyStr label2

/-- parse_manifest (harvard.py lines 528-630).  The shelfmark falls back
from the label patterns to the Call Number and Shelfmark metadata fields
and finally to DRS plus the discovery id — the record is always built,
never rejected.  Optional fields are set only when truthy; date_start
and date_end are set only when non-zero, mirroring the truthiness tests
of lines 592-594. -/
def parse_manifest (manifest_data : JVal) (manifest_url : String)
    (discovery_item : JVal) : Option ParsedRecord :=
  let metadata := match jGetD manifest_data "metadata" (JVal.arr []) with
    | JVal.arr entries => entries
    | _ => []
  let drs_id := pyStr (jGetD discovery_item "drs_id" (JVal.str ""))
  let label := manifestLabel manifest_data
  let sm1 := extract_shelfmark_from_label label
  let sm2 := if optFalsy sm1 then extract_metadata_value metadata "Call Number"
    else sm1
  let sm3 := if optFalsy sm2 then extract_metadata_value metadata "Shelfmark"
    else sm2
  let shelfmark := if optFalsy sm3 then "DRS " ++ drs_id else sm3.getD ""
  let collection := get_collection_from_shelfmark shelfmark
  let t1 : Option String := some (extract_title_from_label label shelfmark)
  let t2 := if optFalsy t1 then extract_metadata_value metadata "Title" else t1
  let t3 := if optFalsy t2 then
      some (pyStr (jGetD discovery_item "title" (JVal.str ""))) else t2
  let contents := if optFalsy t3 then none else t3
  let d1 := extract_date_from_label label
  let d2 := if optFalsy d1 then extract_metadata_value metadata "Date" else d1
  let d3 := if optFalsy d2 then
      extract_metadata_value metadata "Date of creation" else d2
  let d4 := if optFalsy d3 then
      some (pyStr (jGetD discovery_item "date" (JVal.str ""))) else d3
  let dateInfo : Option String × Option Int × Option Int :=
    if optFalsy d4 then (none, none, none)
    else
      let ds := d4.getD ""
      let parsed := parse_date ds
      (some ds,
       match parsed.1 with
       | some v => if v ≠ 0 then some v else none
       | none => none,
       match parsed.2 with
       | some v => if v ≠ 0 then some v else none
       | none => none)
  let extent1 := extract_metadata_value metadata "Physical Description"
  let extent := if optFalsy extent1 then extract_metadata_value metadata "Extent"
    else extent1
  let folios := if optFalsy extent then none else extent
  let language0 := extract_metadata_value metadata "Language"
  let language := if optFalsy language0 then none else language0
  let prov1 := extract_metadata_value metadata "Provenance"
  let prov2 := if optFalsy prov1 then extract_metadata_value metadata "Origin"
    else prov1
  let provenance := if optFalsy prov2 then none else prov2
  let th1 := extract_thumbnail_url manifest_data
  let th2 := if optFalsy th1 then
      (let v := jGetD discovery_item "thumbnail_url" JVal.null
       if jTruthy v then some (pyStr v) else none)
    else th1
  let image_count := count_canvases manifest_data
  some
    { shelfmark := shelfmark
      collection := collection
      contents := contents
      date_display := dateInfo.1
      date_start := dateInfo.2.1
      date_end := dateInfo.2.2
      folios := folios
      language := language
      provenance := provenance
      thumbnail_url := th2
      image_count := if image_count > 0 then some ((image_count : Nat) : Int)
        else none
      iiif_manifest_url := manifest_url
      source_url := "https://iiif.lib.harvard.edu/manifests/view/drs:" ++ drs_id }

end Harvard

namespace Parker

/-- extract_metadata_value (parker.py lines 371-404): the text is an
exact copy of harvard.py's function, so the model reuses that
translation. -/
def extract_metadata_value (metadata : List JVal) (label : String) :
    Option String :=
  Harvard.extract_metadata_value metadata label

/-- parse_date (parker.py lines 439-460): like harvard.py's but with no
circa handling at all — one year is never widened. -/
def parse_date (s : String) : Option Int × Option Int :=
  if s.data.isEmpty then (none, none)
  else
    match findYears s.data with
    | y1 :: y2 :: ys =>
      (some y1, some ((y2 :: ys).getLast (List.cons_ne_nil _ _)))
    | [y] => (some y, some y)
    | [] =>
      match findCenturies s.data with
      | c :: cs =>
        (some (((c : Int) - 1) * 100),
         some ((((c :: cs).getLast (List.cons_ne_nil _ _) : Int) - 1) * 100 + 99))
      | [] => (none, none)

/-- extract_thumbnail_url (parker.py lines 407-437): like harvard.py's,
except that a non-dict first element of a list thumbnail is returned as
its str(). -/
def extract_thumbnail_url (manifest : JVal) : Option String :=
  let thumb := jGetD manifest "thumbnail" JVal.null
  let fromThumb : Option (Option String) :=
    if jTruthy thumb then
      match thumb with
      | JVal.obj fields => some (pyOrStr (jGet fields "@id") (jGet fields "id"))
      | JVal.arr (t :: _) =>
        some (match t with
          | JVal.obj fields => pyOrStr (jGet fields "@id") (jGet fields "id")
          | other => some (pyStr other))
      | _ => none
    else none
  match fromThumb with
  | some r => r
  | none =>
    match jGetD manifest "sequences" (JVal.arr []) with
    | JVal.arr (s0 :: _) =>
      match jGetD s0 "canvases" (JVal.arr []) with
      | JVal.arr (c0 :: _) =>
        match jGetD c0 "images" (JVal.arr []) with
        | JVal.arr (i0 :: _) =>
          let resource := jGetD i0 "resource" (JVal.obj [])
          let service := jGetD resource "service" (JVal.obj [])
          let service2 := match service with
            | JVal.arr (sv :: _) => sv
            | JVal.arr [] => JVal.obj []
            | other => other
          match service2 with
          | JVal.obj fields =>
            match pyOrStr (jGet fields "@id") (jGet fields "id") with
            | some sid =>
              if sid.isEmpty then none
              else some (sid ++ "/full/200,/0/default.jpg")
            | none => none
          | _ => none
        | _ => none
      | _ => none
    | _ => none

/-- count_canvases (parker.py lines 463-468), identical in form to
harvard.py's. -/
def count_canvases (manifest : JVal) : Nat :=
  Harvard.count_canvases manifest

/-- The label resolution of parker.py lines 477-479: a dict label
becomes its @value when that is truthy, else the str() of the dict. -/
def manifestLabel (manifest : JVal) : String :=
  match jGetD manifest "label" (JVal.str "") with
  | JVal.obj fields =>
    let v := (jGet fields "@value").getD (JVal.str "")
    if jTruthy v then pyStr v else pyRepr (JVal.obj fields)
  | other => pyStr other

/-- Match of the shelfmark pattern MS\.?\s*(\d+[A-Za-z]?) at the head of
the list (parker.py line 484), case sensitive; returns the captured
group. -/
def matchMSAt (l : List Char) : Option (List Char) :=
  match l with
  | 'M' :: 'S' :: r1 =>
    let r2 := match r1 with
      | '.' :: rr => rr
      | _ => r1
    let r3 := r2.dropWhile isPySpace
    let ds := r3.takeWhile Char.isDigit
    if ds.isEmpty then none
    else
      let r4 := r3.drop ds.length
      let letter := match r4 with
        | c :: _ => if c.isAlpha then [c] else []
        | [] => []
      some (ds ++ letter)
  | _ => none

def searchMSAux : Nat → List Char → Option (List Char)
  | 0, _ => none
  | _ + 1, [] => none
  | fuel + 1, c :: rest =>
    match matchMSAt (c :: rest) with
    | some g => some g
    | none => searchMSAux fuel rest

/-- The shelfmark extracted from the label when the discovery stub has
none (parker.py lines 483-487): MS plus the first captured group, None
when the pattern never matches. -/
def shelfmarkFromLabel (label : String) : Option String :=
  (searchMSAux label.data.length label.data).map
    (fun g => "MS " ++ String.mk g)

/-- Removal of the Cambridge, Corpus Christi College prefix, re.sub of
^Cambridge,?\s*Corpus Christi College,?\s* (parker.py line 505). -/
def stripCCCHead (l : List Char) : List Char :=
  match matchLitCS "Cambridge".data l with
  | some r1 =>
    let r2 := match r1 with
      | ',' :: rr => rr
      | _ => r1
    let r3 := r2.dropWhile isPySpace
    match matchLitCS "Corpus Christi College".data r3 with
    | some r4 =>
      let r5 := match r4 with
        | ',' :: rr => rr
        | _ => r4
      r5.dropWhile isPySpace
    | none => l
  | none => l

/-- Removal of a leading shelfmark from the title, re.sub of
^MS\.?\s*\d+[A-Za-z]?\s*[:\-–]?\s* (parker.py line 506). -/
def stripMSHead (l : List Char) : List Char :=
  match l with
  | 'M' :: 'S' :: r1 =>
    let r2 := match r1 with
      | '.' :: rr => rr
      | _ => r1
    let r3 := r2.dropWhile isPySpace
    let ds := r3.takeWhile Char.isDigit
    if ds.isEmpty then l
    else
      let r4 := r3.drop ds.length
      let r5 := match r4 with
        | c :: rr => if c.isAlpha then rr else r4
        | [] => r4
      let r6 := r5.dropWhile isPySpace
      let r7 := match r6 with
        | c :: rr => if c == ':' || c == '-' || c == '–' then rr else r6
        | [] => r6
      r7.dropWhile isPySpace
  | _ => l

/-- parse_manifest (parker.py lines 470-560).  The shelfmark comes from
the discovery stub or the MS pattern in the label; without either the
record is rejected with None — the only rejection in the builder.  The
title is cleaned of the institution and shelfmark prefixes and
truncated; the source URL renders the druid with str(), giving the
literal None when the stub lacks one. -/
def parse_manifest (manifest_data : JVal) (manifest_url : String)
    (discovery_item : JVal) : Option ParsedRecord :=
  let metadata := match jGetD manifest_data "metadata" (JVal.arr []) with
    | JVal.arr entries => entries
    | _ => []
  let label := manifestLabel manifest_data
  let sm0 := jGetD discovery_item "shelfmark" JVal.null
  let shelfmarkOpt : Option String :=
    if jTruthy sm0 then some (pyStr sm0) else shelfmarkFromLabel label
  match shelfmarkOpt with
  | none => none
  | some shelfmark =>
    let t1 := extract_metadata_value metadata "Title"
    let t2 := if optFalsy t1 then some label else t1
    let t3 := if optFalsy t2 then
        (match jGetD discovery_item "title" JVal.null with
         | JVal.null => none
         | v => some (pyStr v))
      else t2
    let contents : Option String :=
      match t3 with
      | none => none
      | some title =>
        let cleaned := pyStrip (stripMSHead (stripCCCHead title.data))
        let truncated := truncateContents (String.mk cleaned)
        if truncated.isEmpty then none else some truncated
    let d1 := extract_metadata_value metadata "Date"
    let d2 := if optFalsy d1 then
        extract_metadata_value metadata "Date of Creation" else d1
    let dateInfo : Option String × Option Int × Option Int :=
      if optFalsy d2 then (none, none, none)
      else
        let ds := d2.getD ""
        let parsed := parse_date ds
        (some ds,
         match parsed.1 with
         | some v => if v ≠ 0 then some v else none
         | none => none,
         match parsed.2 with
         | some v => if v ≠ 0 then some v else none
         | none => none)
    let language0 := extract_metadata_value metadata "Language"
    let language := if optFalsy language0 then none else language0
    let extent1 := extract_metadata_value metadata "Physical Description"
    let extent := if optFalsy extent1 then
        extract_metadata_value metadata "Extent" else extent1
    let folios := if optFalsy extent then none else extent
    let prov0 := extract_metadata_value metadata "Provenance"
    let provenance := if optFalsy prov0 then none else prov0
    let th1 := extract_thumbnail_url manifest_data
    let thumbnail := if optFalsy th1 then none else th1
    let image_count := count_canvases manifest_data
    let druid := jGetD discovery_item "druid" JVal.null
    some
      { shelfmark := shelfmark
        collection := "Parker Library"
        contents := contents
        date_display := dateInfo.1
        date_start := dateInfo.2.1
        date_end := dateInfo.2.2
        folios := folios
        language := language
        provenance := provenance
        thumbnail_url := thumbnail
        image_count := if image_count > 0 then
            some ((image_count : Nat) : Int) else none
        iiif_manifest_url := manifest_url
        source_url :=
          "https://parker.stanford.edu/parker/catalog/" ++ pyStr druid }

end Parker

/-- Claim C5 counterexample: with a manifest yielding no shelfmark and a
discovery stub carrying only the DRS id, Harvard's builder does not
return None — it substitutes DRS plus the id as the shelfmark. -/
theorem harvard_never_rejects_counterexample :
    (Harvard.parse_manifest (JVal.obj []) "u"
        (JVal.obj [("drs_id", JVal.str "12345678")])).map
      ParsedRecord.shelfmark = some "DRS 12345678" ∧
    Harvard.parse_manifest (JVal.obj []) "u"
        (JVal.obj [("drs_id", JVal.str "12345678")]) ≠ none :=
  ⟨rfl, Option.isSome_iff_ne_none.mp rfl⟩

/-- Claim C5, amended: rejection on a missing shelfmark holds for
Parker's builder — it returns None exactly when the discovery stub's
shelfmark is falsy and the MS pattern finds nothing in the manifest
label, and that is its only rejection — while Harvard's builder never
returns None, substituting DRS plus the discovery id instead. -/
theorem record_builder_rejection :
    (∀ (m : JVal) (url : String) (stub : JVal),
      (Harvard.parse_manifest m url stub).isSome = true) ∧
    (∀ (m : JVal) (url : String) (stub : JVal),
      Parker.parse_manifest m url stub = none ↔
        jTruthy (jGetD stub "shelfmark" JVal.null) = false ∧
        Parker.shelfmarkFromLabel (Parker.manifestLabel m) = none) := by
  constructor
  · intro m url stub
    rfl
  · intro m url stub
    unfold Parker.parse_manifest
    by_cases ht : jTruthy (jGetD stub "shelfmark" JVal.null) = true
    · simp [ht]
    · have ht2 : jTruthy (jGetD stub "shelfmark" JVal.null) = false := by
        cases h : jTruthy (jGetD stub "shelfmark" JVal.null) <;> simp_all
      cases hf : Parker.shelfmarkFromLabel (Parker.manifestLabel m) with
      | none => simp [ht2, hf]
      | some g => simp [ht2, hf]

/-- Whether a string ends in the three-character ellipsis marker. -/
def endsWithEllipsis (s : String) : Bool :=
  s.data.reverse.take 3 == ['.', '.', '.']

/-- Claim C9, amended: Parker's and Cambridge's builders truncate
contents longer than 1000 characters to the first 997 characters plus an
ellipsis (total length 1000, ending in the marker); Lambeth's cuts to the
first 1000 characters without appending any marker; all three leave
strings of at most 1000 characters unchanged. -/
theorem contents_truncation (t : String) :
    (t.length > 1000 →
      Parker.truncateContents t = String.mk (t.data.take 997) ++ "..." ∧
      Cambridge.truncateContents t = String.mk (t.data.take 997) ++ "..." ∧
      (Parker.truncateContents t).length = 1000 ∧
      endsWithEllipsis (Parker.truncateContents t) = true ∧
      Lambeth.truncateContents t = String.mk (t.data.take 1000)) ∧
    (t.length ≤ 1000 →
      Parker.truncateContents t = t ∧ Cambridge.truncateContents t = t ∧
      Lambeth.truncateContents t = t) := by
  constructor
  · intro hlen
    have hP : Parker.truncateContents t = String.mk (t.data.take 997) ++ "..." := by
      unfold Parker.truncateContents
      rw [if_pos hlen]
    have hC : Cambridge.truncateContents t = String.mk (t.data.take 997) ++ "..." := by
      unfold Cambridge.truncateContents
      rw [if_pos hlen]
    have hdl : t.data.length = t.length := rfl
    have hlen997 : (t.data.take 997).length = 997 := by
      rw [List.length_take]
      omega
    refine ⟨hP, hC, ?_, ?_, ?_⟩
    · rw [hP]
      show (String.mk (t.data.take 997) ++ "...").data.length = 1000
      rw [String.data_append]
      rw [List.length_append, hlen997]
      rfl
    · rw [hP]
      unfold endsWithEllipsis
      rw [show (String.mk (t.data.take 997) ++ "...").data =
          t.data.take 997 ++ ['.', '.', '.'] from by rw [String.data_append]]
      rw [List.reverse_append]
      rfl
    · unfold Lambeth.truncateContents
      rw [if_pos hlen]
  · intro hlen
    have hn : ¬ t.length > 1000 := by omega
    unfold Parker.truncateContents Cambridge.truncateContents
      Lambeth.truncateContents
    simp [if_neg hn]

/-- Claim C9 counterexample: on a 1001-character string Lambeth's
builder stores the first 1000 characters with no trailing ellipsis,
while the claim requires an appended marker. -/
theorem lambeth_truncation_counterexample :
    Lambeth.truncateContents (String.mk (List.replicate 1001 'a')) =
      String.mk (List.replicate 1000 'a') ∧
    endsWithEllipsis (String.mk (List.replicate 1000 'a')) = false ∧
    Parker.truncateContents (String.mk (List.replicate 1001 'a')) =
      String.mk (List.replicate 997 'a') ++ "..." := by
  have h1001 : (String.mk (List.replicate 1001 'a')).length = 1001 := by
    show (List.replicate 1001 'a').length = 1001
    rw [List.length_replicate]
  have htake : ∀ n : Nat, n ≤ 1001 →
      (List.replicate 1001 'a').take n = List.replicate n 'a' := by
    intro n hn
    rw [List.take_replicate]
    congr 1
    omega
  refine ⟨?_, ?_, ?_⟩
  · unfold Lambeth.truncateContents
    rw [if_pos (by rw [h1001]; omega)]
    show String.mk ((List.replicate 1001 'a').take 1000) = _
    rw [htake 1000 (by omega)]
  · unfold endsWithEllipsis
    show ((List.replicate 1000 'a').reverse.take 3 == ['.', '.', '.']) = false
    rw [List.reverse_replicate, List.take_replicate]
    rw [show min 3 1000 = 3 from rfl]
    decide
  · unfold Parker.truncateContents
    rw [if_pos (by rw [h1001]; omega)]
    show String.mk ((List.replicate 1001 'a').take 997) ++ "..." = _
    rw [htake 997 (by omega)]

/-- Witness for C9 amended at a 1001-character string and at a short
string. -/
theorem contents_truncation_witness :
    (Parker.truncateContents (String.mk (List.replicate 1001 'a'))).length = 1000 ∧
    Lambeth.truncateContents "abc" = "abc" :=
  ⟨((contents_truncation (String.mk (List.replicate 1001 'a'))).1
      (by show (List.replicate 1001 'a').length > 1000
          rw [List.length_replicate]
          omega)).2.2.1,
   ((contents_truncation "abc").2 (by decide)).2.2⟩

end Compilatio
